import Mathlib

set_option maxRecDepth 8000

/-! Verification development for the C-declaration parsing core of
list_syscalls: clex.py (lexer), typedecl.py (token classifier and
declaration parser), fundecl.py (function-prototype parser) and
c_output.py (type simplifier).  Strings are modelled as lists of
characters; Python exceptions are modelled by an explicit error type. -/

abbrev Tok := List Char

/-- Word characters: the ASCII reading of the regex class used by IDRE. -/
def isWordChar (c : Char) : Bool := c.isAlpha || c.isDigit || c = '_'

/-- Whitespace characters: the ASCII reading of the regex class used by SPACERE. -/
def isSpaceChar (c : Char) : Bool :=
  c = ' ' || c = '\t' || c = '\n' || c = '\r' || c = '\x0b' || c = '\x0c'

/-- Emit the word run in progress, if any. -/
def flushAcc (acc : Tok) : List Tok := if acc = [] then [] else [acc]

/-- Boolean list-prefix test. -/
def listPre : Tok → Tok → Bool
  | [], _ => true
  | _ :: _, [] => false
  | a :: as, b :: bs => a == b && listPre as bs

/-- The OTHER_TOKENS check of the lexer: the multi-character token at the
start of the text, if any.  No element of OTHER_TOKENS is a prefix of
another, so the set's iteration order in the source cannot matter. -/
def otherTok (text : List Char) : Option Tok :=
  if listPre "...".data text then some "...".data
  else if listPre "[[noreturn]]".data text then some "[[noreturn]]".data
  else if listPre "[[deprecated]]".data text then some "[[deprecated]]".data
  else none

/-- Lexer clex.clex: skips whitespace, consumes maximal word runs (held in
the accumulator), the whitelisted multi-character tokens, or single symbol
characters.  Each step consumes at least one character, so a fuel equal to
the text length always suffices. -/
def clexFuel : Nat → List Char → Tok → List Tok
  | 0, _, acc => flushAcc acc
  | _ + 1, [], acc => flushAcc acc
  | fuel + 1, c :: cs, acc =>
    if isSpaceChar c then flushAcc acc ++ clexFuel fuel cs []
    else if isWordChar c then clexFuel fuel cs (acc ++ [c])
    else
      match otherTok (c :: cs) with
      | some o => flushAcc acc ++ (o :: clexFuel fuel ((c :: cs).drop o.length) [])
      | none => flushAcc acc ++ ([c] :: clexFuel fuel cs [])

/-- Lexer entry point. -/
def clex (text : List Char) : List Tok := clexFuel text.length text []

def IGNORE_TOKEN : List Tok := ["__user".data, "asmlinkage".data]

def TYPE_SPECIFIERS_EXTRA : List Tok :=
  ["fd_set".data, "u32".data, "__s32".data, "u64".data, "__u32".data]

def TYPE_SPECIFIERS : List Tok :=
  ["void".data, "char".data, "short".data, "int".data, "long".data, "float".data,
   "double".data, "signed".data, "unsigned".data, "_Bool".data, "_Complex".data]

def TAG_SPECIFIERS : List Tok := ["struct".data, "union".data, "enum".data]

def TYPE_QUALIFIERS : List Tok :=
  ["const".data, "restrict".data, "volatile".data, "_Atomic".data]

/-- Full match of TYPE_SPECIFIERS_EXTRA_RE: one or more word characters
followed by the two characters of the fixed typedef suffix. -/
def matchesExtraRe (t : Tok) : Bool :=
  decide (3 ≤ t.length) && t.all isWordChar && decide (t.drop (t.length - 2) = ['_', 't'])

/-- Full match of IDENTIFIER_RE: a letter or underscore, then word characters. -/
def matchesIdentRe : Tok → Bool
  | [] => false
  | c :: cs => (c.isAlpha || c = '_') && cs.all isWordChar

inductive PartKind
  | typeSpecifier
  | typeQualifier
  | pointer
  | identifier
  | cEllipsis
  | sysConstant
deriving DecidableEq, Repr

structure TypePart where
  kind : PartKind
  tokens : List Tok
deriving DecidableEq, Repr

/-- TypeSpecifier.match: each match function of the source inspects only the
first remaining token and returns how many tokens the part consumes. -/
def matchTypeSpecifier (t : Tok) : Nat :=
  if t ∈ TYPE_SPECIFIERS ∨ t ∈ TYPE_SPECIFIERS_EXTRA ∨ matchesExtraRe t then 1
  else if t ∈ TAG_SPECIFIERS then 2
  else 0

/-- TypeQualifier.match. -/
def matchTypeQualifier (t : Tok) : Nat := if t ∈ TYPE_QUALIFIERS then 1 else 0

/-- Pointer.match. -/
def matchPointer (t : Tok) : Nat := if t = ['*'] then 1 else 0

/-- Identifier.match. -/
def matchIdentifier (t : Tok) : Nat := if matchesIdentRe t then 1 else 0

/-- Modelled from the spec: the variadic-ellipsis pseudo-specifier class
(typedecl.CEllipsis is referenced by fundecl.py but missing from the
provided typedecl.py).  It matches the lexer's ellipsis token, as the sole
typespec of a parameter. -/
def matchCEllipsis (t : Tok) : Nat := if t = "...".data then 1 else 0

/-- Modelled from the spec: the syscall-pseudo-constant specifier class
(typedecl.SYSConstant is referenced by fundecl.py but missing from the
provided typedecl.py).  It matches a token carrying the fixed SYS_ prefix,
as the sole typespec of a parameter. -/
def matchSYSConstant (t : Tok) : Nat := if listPre "SYS_".data t then 1 else 0

def matchPart : PartKind → Tok → Nat
  | .typeSpecifier, t => matchTypeSpecifier t
  | .typeQualifier, t => matchTypeQualifier t
  | .pointer, t => matchPointer t
  | .identifier, t => matchIdentifier t
  | .cEllipsis, t => matchCEllipsis t
  | .sysConstant, t => matchSYSConstant t

/-- The allowafter successor sets of the part classes, in the source's
priority order; the two spec-modelled pseudo-specifier classes allow
nothing after them. -/
def allowafter : PartKind → List PartKind
  | .typeSpecifier => [.typeSpecifier, .typeQualifier, .pointer, .identifier]
  | .typeQualifier => [.typeSpecifier, .typeQualifier, .pointer, .identifier]
  | .pointer => [.typeQualifier, .pointer, .identifier]
  | .identifier => []
  | .cEllipsis => []
  | .sysConstant => []

/-- Modelled from the spec: the initial legal classes.  The source
initializes to the specifier and qualifier classes; the pseudo-specifier
classes must be matchable as a parameter's sole typespec, so they are
included, ahead of the others. -/
def initialClasses : List PartKind :=
  [.cEllipsis, .sysConstant, .typeSpecifier, .typeQualifier]

/-- Try the legal classes in priority order on the first remaining token. -/
def tryClasses : List PartKind → Tok → Option (PartKind × Nat)
  | [], _ => none
  | k :: ks, t => if matchPart k t = 0 then tryClasses ks t else some (k, matchPart k t)

/-- Join tokens with single spaces. -/
def joinSpace : List Tok → List Char
  | [] => []
  | [t] => t
  | t :: t2 :: ts => t ++ ' ' :: joinSpace (t2 :: ts)

/-- Token classifier typedecl.parse: tokens in the ignore list are dropped
without affecting the legal-next state; otherwise the first matching legal
class consumes one token, or two for a struct, union or enum specifier
(like the slice in the source, a two-token match at the end of the input
yields a one-token part). -/
def parseParts : List PartKind → List Tok → Except (List Char) (List TypePart)
  | _, [] => .ok []
  | next, t :: ts =>
    if t ∈ IGNORE_TOKEN then parseParts next ts
    else
      match tryClasses next t with
      | none => .error ("Cannot match tokens at: ".data ++ joinSpace (t :: ts))
      | some (k, n) =>
        if n = 1 then
          match parseParts (allowafter k) ts with
          | .error e => .error e
          | .ok rest => .ok (⟨k, [t]⟩ :: rest)
        else
          match ts with
          | [] => .ok [⟨k, [t]⟩]
          | t2 :: ts2 =>
            match parseParts (allowafter k) ts2 with
            | .error e => .error e
            | .ok rest => .ok (⟨k, [t, t2]⟩ :: rest)

/-- Python exceptions that the embedded code can raise. -/
inductive PyErr
  | valueError (msg : List Char)
  | indexError
  | assertionError (msg : List Char)
deriving DecidableEq, Repr

structure TypeDecl where
  typespec : List TypePart
  identifier : Option TypePart
deriving DecidableEq, Repr

/-- Declaration parser TypeDecl.__init__: lex, classify, then split a
trailing identifier part.  The final-part lookup is on an empty part list
an IndexError; classifier failures are re-raised as ValueError with the
offending declaration text prepended. -/
def mkTypeDecl (decl : List Char) : Except PyErr TypeDecl :=
  match parseParts initialClasses (clex decl) with
  | .error e =>
      .error (.valueError ("Not a valid C type specification: ".data ++ decl ++ '\n' :: e))
  | .ok parts =>
    match parts.getLast? with
    | none => .error .indexError
    | some lastPart =>
      if lastPart.kind = .identifier then .ok ⟨parts.dropLast, some lastPart⟩
      else .ok ⟨parts, none⟩

/-- The repr of one part: its tokens joined with single spaces. -/
def partRepr (p : TypePart) : List Char := joinSpace p.tokens

/-- The repr of a declaration: part reprs joined with single spaces, the
identifier appended after a space. -/
def renderTypeDecl (d : TypeDecl) : List Char :=
  match d.identifier with
  | none => joinSpace (d.typespec.map partRepr)
  | some idp => joinSpace (d.typespec.map partRepr) ++ ' ' :: partRepr idp

/-- Python str.split on a comma: at least one group, empty groups kept. -/
def splitComma : List Char → List (List Char)
  | [] => [[]]
  | c :: cs =>
    if c = ',' then [] :: splitComma cs
    else
      match splitComma cs with
      | [] => [[c]]
      | g :: gs => (c :: g) :: gs

/-- All decompositions of a text as a group, an opening parenthesis, and the
rest, in order of increasing group length. -/
def parenSplits : List Char → List (List Char × List Char)
  | [] => []
  | c :: cs =>
    (if c = '(' then [(([] : List Char), cs)] else [])
      ++ (parenSplits cs).map (fun p => (c :: p.1, p.2))

/-- Constraints of FUNDECLRE on the two groups: group 1 is nonempty and has
no semicolon, group 2 has no closing parenthesis. -/
def validSplit (p : List Char × List Char) : Bool :=
  decide (p.1 ≠ []) && decide (';' ∉ p.1) && decide (')' ∉ p.2)

/-- The optional trailing semicolon of FUNDECLRE. -/
def stripSemi (s : List Char) : List Char :=
  if s.getLast? = some ';' then s.dropLast else s

/-- Operational model of FUNDECLRE.fullmatch: an optional trailing
semicolon, then a mandatory final closing parenthesis; the greedy first
group makes the match split at the last workable opening parenthesis. -/
def fundeclSplit (s : List Char) : Option (List Char × List Char) :=
  if (stripSemi s).getLast? = some ')' then
    ((parenSplits (stripSemi s).dropLast).filter validSplit).getLast?
  else none

inductive FunStyle
  | plain
  | sys
deriving DecidableEq, Repr

/-- FunDecl and its SysFunDecl sub-variant, distinguished by the style tag. -/
structure FunDecl where
  style : FunStyle
  name : Tok
  return_type : TypeDecl
  param_list : List TypeDecl
deriving DecidableEq, Repr

/-- Parse each parameter group as a declaration, stopping at the first
failure, as the list comprehension in fundecl.parse does. -/
def parseParams : List (List Char) → Except PyErr (List TypeDecl)
  | [] => .ok []
  | p :: ps =>
    match mkTypeDecl p with
    | .error e => .error e
    | .ok d =>
      match parseParams ps with
      | .error e => .error e
      | .ok ds => .ok (d :: ds)

def wrapMsg (decl e : List Char) : List Char :=
  "Not a valid C function declaration: ".data ++ decl ++ '\n' :: e

def declError (decl : List Char) : PyErr :=
  .valueError ("Not a valid C function declaration: ".data ++ decl)

/-- A declaration whose typespec is a single part of the given kind. -/
def isSoleKind (k : PartKind) (d : TypeDecl) : Bool :=
  match d.typespec with
  | [p] => decide (p.kind = k)
  | _ => false

/-- The void-parameter test of fundecl.parse. -/
def isVoidParam (d : TypeDecl) : Bool :=
  match d.typespec with
  | [p] => decide (p.kind = PartKind.typeSpecifier) && decide (p.tokens = ["void".data])
  | _ => false

/-- The void-parameter normalization of fundecl.parse. -/
def voidNormalize (params0 : List TypeDecl) : List TypeDecl :=
  match params0 with
  | [p] => if isVoidParam p then [] else [p]
  | _ => params0

/-- The placement checks and the name and pseudo-constant reconciliation of
fundecl.parse, on the extracted name, the cleared return type and the
normalized parameter list. -/
def fundeclChecks (decl : List Char) (name : Tok) (return_type : TypeDecl)
    (param_list : List TypeDecl) : Except PyErr FunDecl :=
  if param_list.dropLast.any (isSoleKind .cEllipsis) then .error (declError decl)
  else if param_list.tail.any (isSoleKind .sysConstant) then .error (declError decl)
  else
    let is_syscall : Bool := decide (name = "syscall".data)
    let has_sys : Bool :=
      match param_list with
      | [] => false
      | p :: _ => isSoleKind .sysConstant p
    if is_syscall ≠ has_sys then .error (declError decl)
    else if is_syscall then
      match param_list with
      | [] => .error .indexError
      | p :: rest =>
        match p.typespec with
        | [] => .error .indexError
        | part :: _ =>
          match part.tokens with
          | [] => .error .indexError
          | tk :: _ => .ok ⟨.sys, tk.drop 4, return_type, rest⟩
    else .ok ⟨.plain, name, return_type, param_list⟩

/-- Prototype-level processing of fundecl.parse, after the left part and the
parameter declarations have been parsed: name extraction (an identifier is
mandatory, and its token lookup is on an empty token list an IndexError),
the void normalization, then the placement and reconciliation checks. -/
def fundeclFinish (decl : List Char) (left : TypeDecl) (params0 : List TypeDecl) :
    Except PyErr FunDecl :=
  match left.identifier with
  | none => .error (declError decl)
  | some idPart =>
    match idPart.tokens with
    | [] => .error .indexError
    | name :: _ => fundeclChecks decl name ⟨left.typespec, none⟩ (voidNormalize params0)

/-- Parse the two regex groups: the left part first, then the parameters;
ValueError is re-raised with the offending prototype text prepended, any
other error propagates untouched. -/
def fundeclParseAfterSplit (decl g1 g2 : List Char) : Except PyErr FunDecl :=
  match mkTypeDecl g1 with
  | .error (.valueError e) => .error (.valueError (wrapMsg decl e))
  | .error e => .error e
  | .ok left =>
    match parseParams (splitComma g2) with
    | .error (.valueError e) => .error (.valueError (wrapMsg decl e))
    | .error e => .error e
    | .ok ps => fundeclFinish decl left ps

/-- Function-prototype parser fundecl.parse. -/
def fundeclParse (decl : List Char) : Except PyErr FunDecl :=
  match fundeclSplit decl with
  | none => .error (declError decl)
  | some (g1, g2) => fundeclParseAfterSplit decl g1 g2

def SPECIAL_NAMES : List (Tok × (Tok × Tok)) :=
  [("argv".data, ("CHAR_PP".data, "ARGV".data)),
   ("envp".data, ("CHAR_PP".data, "ENVP".data))]

/-- The fixed-width and size typedef table of c_output.py, written out. -/
def SPECIAL_INTS : List (Tok × Tok) :=
  [("size_t".data, "SIZE_T".data), ("ssize_t".data, "SSIZE_T".data),
   ("int8_t".data, "INT8".data), ("s8".data, "INT8".data), ("__s8".data, "INT8".data),
   ("uint8_t".data, "UINT8".data), ("u8".data, "UINT8".data), ("__u8".data, "UINT8".data),
   ("int16_t".data, "INT16".data), ("s16".data, "INT16".data), ("__s16".data, "INT16".data),
   ("uint16_t".data, "UINT16".data), ("u16".data, "UINT16".data), ("__u16".data, "UINT16".data),
   ("int32_t".data, "INT32".data), ("s32".data, "INT32".data), ("__s32".data, "INT32".data),
   ("uint32_t".data, "UINT32".data), ("u32".data, "UINT32".data), ("__u32".data, "UINT32".data),
   ("int64_t".data, "INT64".data), ("s64".data, "INT64".data), ("__s64".data, "INT64".data),
   ("uint64_t".data, "UINT64".data), ("u64".data, "UINT64".data), ("__u64".data, "UINT64".data)]

inductive CSize
  | short
  | long
  | longlong
deriving DecidableEq, Repr

def sizeUpper : CSize → Tok
  | .short => "SHORT".data
  | .long => "LONG".data
  | .longlong => "LONGLONG".data

/-- The integral-classification scan of simplify over a part's tokens,
accumulating at most one base keyword, one signedness keyword, and a size
modifier; its asserts become assertion errors. -/
def intScan : List Tok → Option Tok → Option Tok → Option CSize →
    Except PyErr (Option Tok × Option Tok × Option CSize)
  | [], base, sgn, size => .ok (base, sgn, size)
  | tok :: toks, base, sgn, size =>
    if tok = "char".data ∨ tok = "int".data then
      match base with
      | some _ => .error (.assertionError "multiple integer specifiers".data)
      | none => intScan toks (some tok) sgn size
    else if tok = "signed".data ∨ tok = "unsigned".data then
      match sgn with
      | some _ => .error (.assertionError "multiple sign specifiers".data)
      | none => intScan toks base (some tok) size
    else if tok = "short".data then
      match size with
      | some _ => .error (.assertionError "multiple size specifiers with short".data)
      | none =>
        match base with
        | some _ => .error (.assertionError "size specifier after integer specifier".data)
        | none => intScan toks base sgn (some .short)
    else if tok = "long".data then
      match base with
      | some _ => .error (.assertionError "size specifier after integer specifier".data)
      | none =>
        match size with
        | none => intScan toks base sgn (some .long)
        | some .long => intScan toks base sgn (some .longlong)
        | some _ => .error (.assertionError "multiple size specifiers with long".data)
    else .error (.valueError ("Unknown token: ".data ++ tok))

/-- The pointer-depth suffix of simplify. -/
def withPointers (pcount : Nat) (simplified : Tok) : Tok :=
  if 0 < pcount then
    if simplified = "UNKNOWN".data then simplified ++ "_P".data
    else simplified ++ '_' :: List.replicate pcount 'P'
  else simplified

/-- Type simplifier c_output.simplify before the parameter-name override:
filter to specifier and pointer parts, count trailing pointers (the
source's negative indexing makes an all-pointer or empty list an
IndexError), then classify on the first remaining part. -/
def simplifyBase (decl : TypeDecl) : Except PyErr Tok :=
  let clean := decl.typespec.filter
    (fun p => decide (p.kind = PartKind.typeSpecifier) || decide (p.kind = PartKind.pointer))
  let pcount := (clean.reverse.takeWhile (fun p => decide (p.kind = PartKind.pointer))).length
  if pcount = clean.length then .error .indexError
  else
    let spec := clean.take (clean.length - pcount)
    match spec with
    | [] => .error .indexError
    | sp0 :: _ =>
      match sp0.tokens with
      | [] => .error .indexError
      | first :: _ =>
        if first ∈ TAG_SPECIFIERS then
          if spec.length = 1 then .ok (withPointers pcount "UNKNOWN".data)
          else .error (.assertionError "remaining specifiers after struct/union/enum".data)
        else
          match SPECIAL_INTS.find? (fun kv => kv.1 == first) with
          | some kv =>
            if spec.length = 1 then .ok (withPointers pcount kv.2)
            else .error (.assertionError "remaining specifiers after integer typedef".data)
          | none =>
            if matchesExtraRe first ∨ first ∈ TYPE_SPECIFIERS_EXTRA then
              if spec.length = 1 then .ok (withPointers pcount "UNKNOWN".data)
              else .error (.assertionError "remaining specifiers after typedef".data)
            else if first = "void".data then
              if spec.length = 1 then
                if 0 < pcount then .ok (withPointers pcount "VOID".data)
                else .error (.assertionError "void specifier without pointer".data)
              else .error (.assertionError "remaining specifiers after void".data)
            else
              match intScan sp0.tokens none none none with
              | .error e => .error e
              | .ok (base, sgn, size) =>
                let sign : Tok :=
                  match sgn with
                  | some s => if s = "unsigned".data then "U".data else "S".data
                  | none => []
                let base1 : Tok := match base with | none => "int".data | some b => b
                if base1 = "char".data then
                  match size with
                  | some _ => .error (.assertionError "size specifier with char".data)
                  | none => .ok (withPointers pcount (sign ++ "CHAR".data))
                else
                  match size with
                  | none => .ok (withPointers pcount (sign ++ "INT".data))
                  | some z => .ok (withPointers pcount (sign ++ sizeUpper z))

/-- Type simplifier c_output.simplify: the base tag, then the argv and envp
parameter-name override at exact tag match. -/
def simplify (decl : TypeDecl) : Except PyErr Tok :=
  match simplifyBase decl with
  | .error e => .error e
  | .ok simplified =>
    match decl.identifier with
    | none => .ok simplified
    | some idp =>
      match idp.tokens with
      | [] => .error .indexError
      | nm :: _ =>
        match SPECIAL_NAMES.find? (fun kv => kv.1 == nm) with
        | none => .ok simplified
        | some kv => if simplified = kv.2.1 then .ok kv.2.2 else .ok simplified

/-- Simplification of a declaration given as text, as in the docstring
examples of c_output.simplify. -/
def simplifyOf (s : String) : Except PyErr Tok :=
  match mkTypeDecl s.data with
  | .error e => .error e
  | .ok d => simplify d

deriving instance DecidableEq for Except

/-- Shorthand for a one-keyword type-specifier part. -/
def tsP (s : String) : TypePart := ⟨.typeSpecifier, [s.data]⟩

/-- Shorthand for an identifier part. -/
def idP (s : String) : TypePart := ⟨.identifier, [s.data]⟩

/-- Shorthand for a pointer part. -/
def ptrP : TypePart := ⟨.pointer, ["*".data]⟩

/-- Shorthand for a variadic-ellipsis part. -/
def ellP : TypePart := ⟨.cEllipsis, ["...".data]⟩

/-- The declaration parsed from the syscall-style example prototype. -/
def c1Expected : FunDecl :=
  ⟨.sys, "read".data, ⟨[tsP "long"], none⟩,
   [⟨[tsP "int"], some (idP "fd")⟩,
    ⟨[tsP "char", ptrP], some (idP "buf")⟩,
    ⟨[tsP "size_t"], some (idP "count")⟩]⟩

/-- The parameter declarations of the syscall-style example prototype. -/
def c1Params : List TypeDecl :=
  [⟨[⟨.sysConstant, ["SYS_read".data]⟩], none⟩,
   ⟨[tsP "int"], some (idP "fd")⟩,
   ⟨[tsP "char", ptrP], some (idP "buf")⟩,
   ⟨[tsP "size_t"], some (idP "count")⟩]

/-- The declaration parsed from an ordinary one-parameter prototype. -/
def c2OkVal : FunDecl :=
  ⟨.plain, "foo".data, ⟨[tsP "int"], none⟩, [⟨[tsP "int"], some (idP "a")⟩]⟩

/-- The declaration parsed from a void-parameter prototype. -/
def c5OkVal : FunDecl := ⟨.plain, "foo".data, ⟨[tsP "int"], none⟩, []⟩

/-- The declaration parsed from a prototype with a trailing ellipsis. -/
def c6OkVal : FunDecl :=
  ⟨.plain, "foo".data, ⟨[tsP "int"], none⟩,
   [⟨[tsP "int"], some (idP "a")⟩, ⟨[ellP], none⟩]⟩

/-- The declaration parsed from a pointer declaration with a trailing
generic-typedef-shaped name. -/
def c10CexVal : TypeDecl := ⟨[tsP "int", ptrP], some (idP "buf_t")⟩
/-- The lexer run with enough fuel and an explicit word-run accumulator. -/
def clexW (text : List Char) (acc : Tok) : List Tok := clexFuel text.length text acc

def OTHER_TOKENS : List Tok := ["...".data, "[[noreturn]]".data, "[[deprecated]]".data]

/-- Tokens that survive lexing: nonempty word runs, the multi-character
tokens, or single symbol characters. -/
def TokOK (t : Tok) : Prop :=
  (t ≠ [] ∧ t.all isWordChar = true) ∨ t ∈ OTHER_TOKENS ∨
    (∃ c, t = [c] ∧ isWordChar c = false ∧ isSpaceChar c = false)

/-- The flattened token lists of a part sequence. -/
def flattenTokens (parts : List TypePart) : List Tok := (parts.map TypePart.tokens).flatten

def c1Tail : List Char := "(SYS_read, int fd, char *buf, size_t count)".data

def c1Post : List Char := "SYS_read, int fd, char *buf, size_t count".data
theorem clexFuel_nil (f : Nat) (acc : Tok) : clexFuel f [] acc = flushAcc acc := by
  cases f <;> rfl

theorem otherTok_cases (t o : Tok) (h : otherTok t = some o) :
    o = "...".data ∨ o = "[[noreturn]]".data ∨ o = "[[deprecated]]".data := by
  unfold otherTok at h
  split_ifs at h <;> simp_all

theorem otherTok_len (t o : Tok) (h : otherTok t = some o) : 1 ≤ o.length := by
  rcases otherTok_cases t o h with h1 | h1 | h1 <;> subst h1 <;> decide

theorem word_not_space (c : Char) (h : isWordChar c = true) : isSpaceChar c = false := by
  rcases Bool.eq_false_or_eq_true (isSpaceChar c) with hs | hs
  · exfalso
    have hc : c = ' ' ∨ c = '\t' ∨ c = '\n' ∨ c = '\r' ∨ c = '\x0b' ∨ c = '\x0c' := by
      simpa [isSpaceChar, Bool.or_eq_true, decide_eq_true_eq, or_assoc] using hs
    rcases hc with h1 | h1 | h1 | h1 | h1 | h1 <;> subst h1 <;> exact absurd h (by decide)
  · exact hs

theorem clexFuel_succ_space (f : Nat) (c : Char) (cs : List Char) (acc : Tok)
    (h : isSpaceChar c = true) :
    clexFuel (f + 1) (c :: cs) acc = flushAcc acc ++ clexFuel f cs [] := by
  simp [clexFuel, h]

theorem clexFuel_succ_word (f : Nat) (c : Char) (cs : List Char) (acc : Tok)
    (h : isWordChar c = true) :
    clexFuel (f + 1) (c :: cs) acc = clexFuel f cs (acc ++ [c]) := by
  simp [clexFuel, word_not_space c h, h]

theorem clexFuel_succ_other (f : Nat) (c : Char) (cs : List Char) (acc o : Tok)
    (hsp : isSpaceChar c = false) (hw : isWordChar c = false)
    (ho : otherTok (c :: cs) = some o) :
    clexFuel (f + 1) (c :: cs) acc
      = flushAcc acc ++ (o :: clexFuel f ((c :: cs).drop o.length) []) := by
  simp [clexFuel, hsp, hw, ho]

theorem clexFuel_succ_sym (f : Nat) (c : Char) (cs : List Char) (acc : Tok)
    (hsp : isSpaceChar c = false) (hw : isWordChar c = false)
    (ho : otherTok (c :: cs) = none) :
    clexFuel (f + 1) (c :: cs) acc = flushAcc acc ++ ([c] :: clexFuel f cs []) := by
  simp [clexFuel, hsp, hw, ho]

theorem clexFuel_mono (f : Nat) : ∀ (g : Nat) (text : List Char) (acc : Tok),
    text.length ≤ f → text.length ≤ g → clexFuel f text acc = clexFuel g text acc := by
  induction f with
  | zero =>
    intro g text acc hf _
    have h0 : text = [] := List.eq_nil_of_length_eq_zero (Nat.le_zero.mp hf)
    subst h0
    rw [clexFuel_nil, clexFuel_nil]
  | succ f ih =>
    intro g text acc hf hg
    cases text with
    | nil => rw [clexFuel_nil, clexFuel_nil]
    | cons c cs =>
      cases g with
      | zero => simp at hg
      | succ g' =>
        have hcs : cs.length ≤ f := by simpa using hf
        have hcs' : cs.length ≤ g' := by simpa using hg
        rcases Bool.eq_false_or_eq_true (isSpaceChar c) with hsp | hsp
        · rw [clexFuel_succ_space f c cs acc hsp, clexFuel_succ_space g' c cs acc hsp,
            ih g' cs [] hcs hcs']
        · rcases Bool.eq_false_or_eq_true (isWordChar c) with hw | hw
          · rw [clexFuel_succ_word f c cs acc hw, clexFuel_succ_word g' c cs acc hw,
              ih g' cs (acc ++ [c]) hcs hcs']
          · cases ho : otherTok (c :: cs) with
            | some o =>
              have hol := otherTok_len _ _ ho
              have hd : ((c :: cs).drop o.length).length ≤ f := by
                simp only [List.length_drop, List.length_cons]; omega
              have hd' : ((c :: cs).drop o.length).length ≤ g' := by
                simp only [List.length_drop, List.length_cons]; omega
              rw [clexFuel_succ_other f c cs acc o hsp hw ho,
                clexFuel_succ_other g' c cs acc o hsp hw ho, ih g' _ [] hd hd']
            | none =>
              rw [clexFuel_succ_sym f c cs acc hsp hw ho,
                clexFuel_succ_sym g' c cs acc hsp hw ho, ih g' cs [] hcs hcs']

theorem clex_eq_clexW (text : List Char) : clex text = clexW text [] := rfl

theorem clexW_nil (acc : Tok) : clexW [] acc = flushAcc acc := rfl

theorem clexW_space (c : Char) (cs : List Char) (acc : Tok) (h : isSpaceChar c = true) :
    clexW (c :: cs) acc = flushAcc acc ++ clexW cs [] := by
  show clexFuel (cs.length + 1) (c :: cs) acc = _
  rw [clexFuel_succ_space cs.length c cs acc h]
  rfl

theorem clexW_word (c : Char) (cs : List Char) (acc : Tok) (h : isWordChar c = true) :
    clexW (c :: cs) acc = clexW cs (acc ++ [c]) := by
  show clexFuel (cs.length + 1) (c :: cs) acc = _
  rw [clexFuel_succ_word cs.length c cs acc h]
  rfl

theorem clexW_other (c : Char) (cs : List Char) (acc o : Tok)
    (hsp : isSpaceChar c = false) (hw : isWordChar c = false)
    (ho : otherTok (c :: cs) = some o) :
    clexW (c :: cs) acc = flushAcc acc ++ (o :: clexW ((c :: cs).drop o.length) []) := by
  show clexFuel (cs.length + 1) (c :: cs) acc = _
  rw [clexFuel_succ_other cs.length c cs acc o hsp hw ho]
  have hol := otherTok_len _ _ ho
  have h1 : ((c :: cs).drop o.length).length ≤ cs.length := by
    simp only [List.length_drop, List.length_cons]; omega
  rw [clexFuel_mono cs.length ((c :: cs).drop o.length).length ((c :: cs).drop o.length) []
    h1 (le_refl _)]
  rfl

theorem clexW_sym (c : Char) (cs : List Char) (acc : Tok)
    (hsp : isSpaceChar c = false) (hw : isWordChar c = false)
    (ho : otherTok (c :: cs) = none) :
    clexW (c :: cs) acc = flushAcc acc ++ ([c] :: clexW cs []) := by
  show clexFuel (cs.length + 1) (c :: cs) acc = _
  rw [clexFuel_succ_sym cs.length c cs acc hsp hw ho]
  rfl

theorem clexW_run (w : Tok) : ∀ (rest : List Char) (acc : Tok), w.all isWordChar = true →
    clexW (w ++ rest) acc = clexW rest (acc ++ w) := by
  induction w with
  | nil => intro rest acc _; simp
  | cons c w' ih =>
    intro rest acc hall
    simp only [List.all_cons, Bool.and_eq_true] at hall
    rw [List.cons_append, clexW_word c (w' ++ rest) acc hall.1, ih rest (acc ++ [c]) hall.2]
    simp

theorem clexW_token_end (t : Tok) (h : TokOK t) : clexW t [] = [t] := by
  rcases h with ⟨hne, hall⟩ | hmem | ⟨c, rfl, hw, hsp⟩
  · have := clexW_run t [] [] hall
    simp only [List.append_nil, List.nil_append] at this
    rw [this, clexW_nil]
    simp [flushAcc, hne]
  · simp only [OTHER_TOKENS, List.mem_cons, List.not_mem_nil, or_false] at hmem
    rcases hmem with rfl | rfl | rfl
    · decide
    · decide
    · decide
  · have ho : otherTok [c] = none := by
      simp [otherTok, listPre]
    rw [clexW_sym c [] [] hsp hw ho, clexW_nil]
    simp [flushAcc]

theorem clexW_token_space (t : Tok) (rest : List Char) (h : TokOK t) :
    clexW (t ++ ' ' :: rest) [] = t :: clexW rest [] := by
  rcases h with ⟨hne, hall⟩ | hmem | ⟨c, rfl, hw, hsp⟩
  · rw [clexW_run t (' ' :: rest) [] hall]
    simp only [List.nil_append]
    rw [clexW_space ' ' rest t (by decide)]
    simp [flushAcc, hne]
  · simp only [OTHER_TOKENS, List.mem_cons, List.not_mem_nil, or_false] at hmem
    rcases hmem with rfl | rfl | rfl
    · show clexW ('.' :: '.' :: '.' :: ' ' :: rest) [] = _
      have ho : otherTok ('.' :: '.' :: '.' :: ' ' :: rest) = some "...".data := by
        simp [otherTok, listPre]
      rw [clexW_other '.' ('.' :: '.' :: ' ' :: rest) [] "...".data (by decide) (by decide) ho]
      show [] ++ ("...".data :: clexW (' ' :: rest) []) = _
      rw [clexW_space ' ' rest [] (by decide)]
      simp [flushAcc]
    · show clexW ('[' :: '[' :: 'n' :: 'o' :: 'r' :: 'e' :: 't' :: 'u' :: 'r' :: 'n' :: ']' :: ']' :: ' ' :: rest) [] = _
      have ho : otherTok ('[' :: '[' :: 'n' :: 'o' :: 'r' :: 'e' :: 't' :: 'u' :: 'r' :: 'n' :: ']' :: ']' :: ' ' :: rest) = some "[[noreturn]]".data := by
        simp [otherTok, listPre]
      rw [clexW_other '[' _ [] "[[noreturn]]".data (by decide) (by decide) ho]
      show [] ++ ("[[noreturn]]".data :: clexW (' ' :: rest) []) = _
      rw [clexW_space ' ' rest [] (by decide)]
      simp [flushAcc]
    · show clexW ('[' :: '[' :: 'd' :: 'e' :: 'p' :: 'r' :: 'e' :: 'c' :: 'a' :: 't' :: 'e' :: 'd' :: ']' :: ']' :: ' ' :: rest) [] = _
      have ho : otherTok ('[' :: '[' :: 'd' :: 'e' :: 'p' :: 'r' :: 'e' :: 'c' :: 'a' :: 't' :: 'e' :: 'd' :: ']' :: ']' :: ' ' :: rest) = some "[[deprecated]]".data := by
        simp [otherTok, listPre]
      rw [clexW_other '[' _ [] "[[deprecated]]".data (by decide) (by decide) ho]
      show [] ++ ("[[deprecated]]".data :: clexW (' ' :: rest) []) = _
      rw [clexW_space ' ' rest [] (by decide)]
      simp [flushAcc]
  · show clexW (c :: ' ' :: rest) [] = _
    have ho : otherTok (c :: ' ' :: rest) = none := by
      simp [otherTok, listPre]
    rw [clexW_sym c (' ' :: rest) [] hsp hw ho]
    show [] ++ ([c] :: clexW (' ' :: rest) []) = _
    rw [clexW_space ' ' rest [] (by decide)]
    simp [flushAcc]

theorem clex_joinSpace (ts : List Tok) (h : ∀ t ∈ ts, TokOK t) :
    clex (joinSpace ts) = ts := by
  induction ts with
  | nil => rfl
  | cons t ts' ih =>
    cases ts' with
    | nil =>
      show clexW (joinSpace [t]) [] = [t]
      rw [show joinSpace [t] = t from rfl]
      exact clexW_token_end t (h t (by simp))
    | cons t2 ts'' =>
      show clexW (joinSpace (t :: t2 :: ts'')) [] = t :: t2 :: ts''
      rw [show joinSpace (t :: t2 :: ts'') = t ++ ' ' :: joinSpace (t2 :: ts'') from rfl]
      rw [clexW_token_space t (joinSpace (t2 :: ts'')) (h t (by simp))]
      have := ih (fun x hx => h x (by simp [hx]))
      rw [clex_eq_clexW] at this
      rw [this]

theorem flushAcc_ok (acc : Tok) (h : acc.all isWordChar = true) :
    ∀ t ∈ flushAcc acc, TokOK t := by
  intro t ht
  unfold flushAcc at ht
  split at ht
  · simp at ht
  · simp only [List.mem_singleton] at ht
    subst ht
    exact Or.inl ⟨by assumption, h⟩

theorem clexFuel_ok : ∀ (f : Nat) (text : List Char) (acc : Tok), acc.all isWordChar = true →
    ∀ t ∈ clexFuel f text acc, TokOK t := by
  intro f
  induction f with
  | zero =>
    intro text acc hacc t ht
    rw [show clexFuel 0 text acc = flushAcc acc from rfl] at ht
    exact flushAcc_ok acc hacc t ht
  | succ f ih =>
    intro text acc hacc t ht
    cases text with
    | nil => rw [clexFuel_nil] at ht; exact flushAcc_ok acc hacc t ht
    | cons c cs =>
      rcases Bool.eq_false_or_eq_true (isSpaceChar c) with hsp | hsp
      · rw [clexFuel_succ_space f c cs acc hsp] at ht
        rcases List.mem_append.mp ht with h1 | h1
        · exact flushAcc_ok acc hacc t h1
        · exact ih cs [] rfl t h1
      · rcases Bool.eq_false_or_eq_true (isWordChar c) with hw | hw
        · rw [clexFuel_succ_word f c cs acc hw] at ht
          have haccc : (acc ++ [c]).all isWordChar = true := by
            simp [List.all_append, hacc, hw]
          exact ih cs (acc ++ [c]) haccc t ht
        · cases ho : otherTok (c :: cs) with
          | some o =>
            rw [clexFuel_succ_other f c cs acc o hsp hw ho] at ht
            rcases List.mem_append.mp ht with h1 | h1
            · exact flushAcc_ok acc hacc t h1
            · rcases List.mem_cons.mp h1 with rfl | h2
              · refine Or.inr (Or.inl ?_)
                rcases otherTok_cases _ _ ho with rfl | rfl | rfl <;> simp [OTHER_TOKENS]
              · exact ih _ [] rfl t h2
          | none =>
            rw [clexFuel_succ_sym f c cs acc hsp hw ho] at ht
            rcases List.mem_append.mp ht with h1 | h1
            · exact flushAcc_ok acc hacc t h1
            · rcases List.mem_cons.mp h1 with rfl | h2
              · exact Or.inr (Or.inr ⟨c, rfl, hw, hsp⟩)
              · exact ih cs [] rfl t h2

theorem clex_ok (text : List Char) : ∀ t ∈ clex text, TokOK t :=
  clexFuel_ok text.length text [] rfl

theorem parseParts_cons_ignore (next : List PartKind) (t : Tok) (ts : List Tok)
    (h : t ∈ IGNORE_TOKEN) : parseParts next (t :: ts) = parseParts next ts := by
  simp [parseParts, h]

theorem parseParts_cons_nomatch (next : List PartKind) (t : Tok) (ts : List Tok)
    (h : t ∉ IGNORE_TOKEN) (h2 : tryClasses next t = none) :
    parseParts next (t :: ts)
      = .error ("Cannot match tokens at: ".data ++ joinSpace (t :: ts)) := by
  simp [parseParts, h, h2]

theorem parseParts_cons_one_ok (next : List PartKind) (t : Tok) (ts : List Tok)
    (k : PartKind) (rest : List TypePart) (h : t ∉ IGNORE_TOKEN)
    (h2 : tryClasses next t = some (k, 1)) (h3 : parseParts (allowafter k) ts = .ok rest) :
    parseParts next (t :: ts) = .ok (⟨k, [t]⟩ :: rest) := by
  simp [parseParts, h, h2, h3]

theorem parseParts_cons_one_err (next : List PartKind) (t : Tok) (ts : List Tok)
    (k : PartKind) (e : List Char) (h : t ∉ IGNORE_TOKEN)
    (h2 : tryClasses next t = some (k, 1)) (h3 : parseParts (allowafter k) ts = .error e) :
    parseParts next (t :: ts) = .error e := by
  simp [parseParts, h, h2, h3]

theorem parseParts_cons_two_nil (next : List PartKind) (t : Tok) (k : PartKind) (n : Nat)
    (h : t ∉ IGNORE_TOKEN) (h2 : tryClasses next t = some (k, n)) (hn : n ≠ 1) :
    parseParts next [t] = .ok [⟨k, [t]⟩] := by
  simp [parseParts, h, h2, hn]

theorem parseParts_cons_two_ok (next : List PartKind) (t t2 : Tok) (ts2 : List Tok)
    (k : PartKind) (n : Nat) (rest : List TypePart) (h : t ∉ IGNORE_TOKEN)
    (h2 : tryClasses next t = some (k, n)) (hn : n ≠ 1)
    (h3 : parseParts (allowafter k) ts2 = .ok rest) :
    parseParts next (t :: t2 :: ts2) = .ok (⟨k, [t, t2]⟩ :: rest) := by
  simp [parseParts, h, h2, hn, h3]

theorem parseParts_cons_two_err (next : List PartKind) (t t2 : Tok) (ts2 : List Tok)
    (k : PartKind) (n : Nat) (e : List Char) (h : t ∉ IGNORE_TOKEN)
    (h2 : tryClasses next t = some (k, n)) (hn : n ≠ 1)
    (h3 : parseParts (allowafter k) ts2 = .error e) :
    parseParts next (t :: t2 :: ts2) = .error e := by
  simp [parseParts, h, h2, hn, h3]

theorem parseParts_nil_classes (toks : List Tok) :
    ∀ parts, parseParts [] toks = .ok parts → parts = [] ∧ ∀ t ∈ toks, t ∈ IGNORE_TOKEN := by
  induction toks with
  | nil => intro parts h; exact ⟨by simpa [parseParts] using h.symm, by simp⟩
  | cons t ts ih =>
    intro parts h
    by_cases hig : t ∈ IGNORE_TOKEN
    · rw [parseParts_cons_ignore [] t ts hig] at h
      rcases ih parts h with ⟨h1, h2⟩
      refine ⟨h1, ?_⟩
      intro x hx
      rcases List.mem_cons.mp hx with rfl | hx'
      · exact hig
      · exact h2 x hx'
    · rw [parseParts_cons_nomatch [] t ts hig rfl] at h
      exact absurd h (by simp)

theorem parseParts_tokens (next : List PartKind) (toks : List Tok) :
    ∀ parts, parseParts next toks = .ok parts →
      ∀ p ∈ parts, p.tokens ≠ [] ∧ ∀ t ∈ p.tokens, t ∈ toks := by
  induction next, toks using parseParts.induct with
  | case1 x =>
    intro parts h p hp
    have : parts = [] := by simpa [parseParts] using h.symm
    subst this
    simp at hp
  | case2 next t ts hig ih =>
    intro parts h p hp
    rw [parseParts_cons_ignore next t ts hig] at h
    rcases ih parts h p hp with ⟨h1, h2⟩
    exact ⟨h1, fun x hx => List.mem_cons_of_mem t (h2 x hx)⟩
  | case3 next t ts hig htry =>
    intro parts h
    rw [parseParts_cons_nomatch next t ts hig htry] at h
    exact absurd h (by simp)
  | case4 next t ts hig k e herr htry ih =>
    intro parts h
    rw [parseParts_cons_one_err next t ts k e hig htry herr] at h
    exact absurd h (by simp)
  | case5 next t ts hig k rest hok htry ih =>
    intro parts h p hp
    rw [parseParts_cons_one_ok next t ts k rest hig htry hok] at h
    have hp' : parts = ⟨k, [t]⟩ :: rest := by simpa using h.symm
    subst hp'
    rcases List.mem_cons.mp hp with rfl | hp2
    · exact ⟨by simp, by simp⟩
    · rcases ih rest hok p hp2 with ⟨h1, h2⟩
      exact ⟨h1, fun x hx => List.mem_cons_of_mem t (h2 x hx)⟩
  | case6 next t hig k n htry hn =>
    intro parts h p hp
    rw [parseParts_cons_two_nil next t k n hig htry hn] at h
    have hp' : parts = [⟨k, [t]⟩] := by simpa using h.symm
    subst hp'
    rcases List.mem_cons.mp hp with rfl | hp2
    · exact ⟨by simp, by simp⟩
    · simp at hp2
  | case7 next t hig k n htry hn t2 ts2 e herr ih =>
    intro parts h
    rw [parseParts_cons_two_err next t t2 ts2 k n e hig htry hn herr] at h
    exact absurd h (by simp)
  | case8 next t hig k n htry hn t2 ts2 rest hok ih =>
    intro parts h p hp
    rw [parseParts_cons_two_ok next t t2 ts2 k n rest hig htry hn hok] at h
    have hp' : parts = ⟨k, [t, t2]⟩ :: rest := by simpa using h.symm
    subst hp'
    rcases List.mem_cons.mp hp with rfl | hp2
    · refine ⟨by simp, ?_⟩
      intro x hx
      rcases List.mem_cons.mp hx with rfl | hx2
      · simp
      · simp only [List.mem_singleton] at hx2
        subst hx2
        simp
    · rcases ih rest hok p hp2 with ⟨h1, h2⟩
      refine ⟨h1, fun x hx => ?_⟩
      exact List.mem_cons_of_mem t (List.mem_cons_of_mem t2 (h2 x hx))

theorem parseParts_reparse (next : List PartKind) (toks : List Tok) :
    ∀ parts, parseParts next toks = .ok parts →
      parseParts next (flattenTokens parts) = .ok parts := by
  induction next, toks using parseParts.induct with
  | case1 x =>
    intro parts h
    have : parts = [] := by simpa [parseParts] using h.symm
    subst this
    rfl
  | case2 next t ts hig ih =>
    intro parts h
    rw [parseParts_cons_ignore next t ts hig] at h
    exact ih parts h
  | case3 next t ts hig htry =>
    intro parts h
    rw [parseParts_cons_nomatch next t ts hig htry] at h
    exact absurd h (by simp)
  | case4 next t ts hig k e herr htry ih =>
    intro parts h
    rw [parseParts_cons_one_err next t ts k e hig htry herr] at h
    exact absurd h (by simp)
  | case5 next t ts hig k rest hok htry ih =>
    intro parts h
    rw [parseParts_cons_one_ok next t ts k rest hig htry hok] at h
    have hp' : parts = ⟨k, [t]⟩ :: rest := by simpa using h.symm
    subst hp'
    have hflat : flattenTokens (⟨k, [t]⟩ :: rest) = t :: flattenTokens rest := by
      simp [flattenTokens]
    rw [hflat]
    exact parseParts_cons_one_ok next t (flattenTokens rest) k rest hig htry (ih rest hok)
  | case6 next t hig k n htry hn =>
    intro parts h
    rw [parseParts_cons_two_nil next t k n hig htry hn] at h
    have hp' : parts = [⟨k, [t]⟩] := by simpa using h.symm
    subst hp'
    have hflat : flattenTokens [⟨k, [t]⟩] = [t] := by simp [flattenTokens]
    rw [hflat]
    exact parseParts_cons_two_nil next t k n hig htry hn
  | case7 next t hig k n htry hn t2 ts2 e herr ih =>
    intro parts h
    rw [parseParts_cons_two_err next t t2 ts2 k n e hig htry hn herr] at h
    exact absurd h (by simp)
  | case8 next t hig k n htry hn t2 ts2 rest hok ih =>
    intro parts h
    rw [parseParts_cons_two_ok next t t2 ts2 k n rest hig htry hn hok] at h
    have hp' : parts = ⟨k, [t, t2]⟩ :: rest := by simpa using h.symm
    subst hp'
    have hflat : flattenTokens (⟨k, [t, t2]⟩ :: rest) = t :: t2 :: flattenTokens rest := by
      simp [flattenTokens]
    rw [hflat]
    exact parseParts_cons_two_ok next t t2 (flattenTokens rest) k n rest hig htry hn
      (ih rest hok)

theorem parseParts_ident_last (next : List PartKind) (toks : List Tok) :
    ∀ parts, parseParts next toks = .ok parts →
      ∀ p ∈ parts.dropLast, p.kind ≠ PartKind.identifier := by
  induction next, toks using parseParts.induct with
  | case1 x =>
    intro parts h
    have : parts = [] := by simpa [parseParts] using h.symm
    subst this
    simp
  | case2 next t ts hig ih =>
    intro parts h
    rw [parseParts_cons_ignore next t ts hig] at h
    exact ih parts h
  | case3 next t ts hig htry =>
    intro parts h
    rw [parseParts_cons_nomatch next t ts hig htry] at h
    exact absurd h (by simp)
  | case4 next t ts hig k e herr htry ih =>
    intro parts h
    rw [parseParts_cons_one_err next t ts k e hig htry herr] at h
    exact absurd h (by simp)
  | case5 next t ts hig k rest hok htry ih =>
    intro parts h p hp
    rw [parseParts_cons_one_ok next t ts k rest hig htry hok] at h
    have hp' : parts = ⟨k, [t]⟩ :: rest := by simpa using h.symm
    subst hp'
    cases hrest : rest with
    | nil =>
      subst hrest
      simp at hp
    | cons r rs =>
      subst hrest
      rw [List.dropLast_cons_of_ne_nil (by simp)] at hp
      rcases List.mem_cons.mp hp with rfl | hp2
      · intro hk
        subst hk
        rcases parseParts_nil_classes ts (r :: rs) hok with ⟨h1, _⟩
        exact absurd h1 (by simp)
      · exact ih (r :: rs) hok p hp2
  | case6 next t hig k n htry hn =>
    intro parts h p hp
    rw [parseParts_cons_two_nil next t k n hig htry hn] at h
    have hp' : parts = [⟨k, [t]⟩] := by simpa using h.symm
    subst hp'
    simp at hp
  | case7 next t hig k n htry hn t2 ts2 e herr ih =>
    intro parts h
    rw [parseParts_cons_two_err next t t2 ts2 k n e hig htry hn herr] at h
    exact absurd h (by simp)
  | case8 next t hig k n htry hn t2 ts2 rest hok ih =>
    intro parts h p hp
    rw [parseParts_cons_two_ok next t t2 ts2 k n rest hig htry hn hok] at h
    have hp' : parts = ⟨k, [t, t2]⟩ :: rest := by simpa using h.symm
    subst hp'
    cases hrest : rest with
    | nil =>
      subst hrest
      simp at hp
    | cons r rs =>
      subst hrest
      rw [List.dropLast_cons_of_ne_nil (by simp)] at hp
      rcases List.mem_cons.mp hp with rfl | hp2
      · intro hk
        subst hk
        rcases parseParts_nil_classes ts2 (r :: rs) hok with ⟨h1, _⟩
        exact absurd h1 (by simp)
      · exact ih (r :: rs) hok p hp2

theorem joinSpace_cons (t : Tok) (ts : List Tok) (h : ts ≠ []) :
    joinSpace (t :: ts) = t ++ ' ' :: joinSpace ts := by
  cases ts with
  | nil => exact absurd rfl h
  | cons t2 ts2 => rfl

theorem joinSpace_append (xs ys : List Tok) (hx : xs ≠ []) (hy : ys ≠ []) :
    joinSpace (xs ++ ys) = joinSpace xs ++ ' ' :: joinSpace ys := by
  induction xs with
  | nil => exact absurd rfl hx
  | cons x xs' ih =>
    cases hxs : xs' with
    | nil =>
      subst hxs
      rw [show ([x] : List Tok) ++ ys = x :: ys from rfl, joinSpace_cons x ys hy]
      rfl
    | cons x2 xs2 =>
      subst hxs
      rw [List.cons_append, joinSpace_cons x ((x2 :: xs2) ++ ys) (by simp),
        ih (by simp), joinSpace_cons x (x2 :: xs2) (by simp)]
      simp

theorem flattenTokens_cons (p : TypePart) (ps : List TypePart) :
    flattenTokens (p :: ps) = p.tokens ++ flattenTokens ps := by
  simp [flattenTokens]

theorem flattenTokens_ne_nil (parts : List TypePart) (hne : parts ≠ [])
    (h : ∀ p ∈ parts, p.tokens ≠ []) : flattenTokens parts ≠ [] := by
  cases parts with
  | nil => exact absurd rfl hne
  | cons p ps =>
    rw [flattenTokens_cons]
    have := h p (by simp)
    intro hcon
    rcases List.append_eq_nil.mp hcon with ⟨h1, _⟩
    exact this h1

theorem mem_flattenTokens (parts : List TypePart) (t : Tok) (ht : t ∈ flattenTokens parts) :
    ∃ p ∈ parts, t ∈ p.tokens := by
  unfold flattenTokens at ht
  rcases List.mem_flatten.mp ht with ⟨l, hl, htl⟩
  rcases List.mem_map.mp hl with ⟨p, hp, rfl⟩
  exact ⟨p, hp, htl⟩

theorem joinSpace_map_partRepr (parts : List TypePart) (h : ∀ p ∈ parts, p.tokens ≠ []) :
    joinSpace (parts.map partRepr) = joinSpace (flattenTokens parts) := by
  induction parts with
  | nil => rfl
  | cons p ps ih =>
    cases hps : ps with
    | nil =>
      subst hps
      show joinSpace [partRepr p] = joinSpace (flattenTokens [p])
      rw [show flattenTokens [p] = p.tokens from by simp [flattenTokens]]
      rfl
    | cons p2 ps2 =>
      subst hps
      rw [List.map_cons, joinSpace_cons (partRepr p) ((p2 :: ps2).map partRepr) (by simp),
        ih (fun q hq => h q (by simp [hq])),
        show flattenTokens (p :: p2 :: ps2) = p.tokens ++ flattenTokens (p2 :: ps2) from
          flattenTokens_cons p (p2 :: ps2),
        joinSpace_append p.tokens (flattenTokens (p2 :: ps2)) (h p (by simp))
          (flattenTokens_ne_nil (p2 :: ps2) (by simp) (fun q hq => h q (by simp [hq])))]
      rfl

theorem mkTypeDecl_ok_id (decl : List Char) (parts : List TypePart) (lastp : TypePart)
    (hp : parseParts initialClasses (clex decl) = .ok parts)
    (hl : parts.getLast? = some lastp) (hk : lastp.kind = .identifier) :
    mkTypeDecl decl = .ok ⟨parts.dropLast, some lastp⟩ := by
  simp [mkTypeDecl, hp, hl, hk]

theorem mkTypeDecl_ok_noid (decl : List Char) (parts : List TypePart) (lastp : TypePart)
    (hp : parseParts initialClasses (clex decl) = .ok parts)
    (hl : parts.getLast? = some lastp) (hk : lastp.kind ≠ .identifier) :
    mkTypeDecl decl = .ok ⟨parts, none⟩ := by
  simp [mkTypeDecl, hp, hl, hk]

theorem mkTypeDecl_err (decl : List Char) (e : List Char)
    (hp : parseParts initialClasses (clex decl) = .error e) :
    mkTypeDecl decl
      = .error (.valueError ("Not a valid C type specification: ".data ++ decl ++ '\n' :: e)) := by
  simp [mkTypeDecl, hp]

theorem mkTypeDecl_empty (decl : List Char)
    (hp : parseParts initialClasses (clex decl) = .ok []) :
    mkTypeDecl decl = .error .indexError := by
  simp [mkTypeDecl, hp]

theorem mkTypeDecl_inv (decl : List Char) (d : TypeDecl) (h : mkTypeDecl decl = .ok d) :
    ∃ parts lastp, parseParts initialClasses (clex decl) = .ok parts ∧
      parts.getLast? = some lastp ∧
      ((lastp.kind = .identifier ∧ d = ⟨parts.dropLast, some lastp⟩) ∨
        (lastp.kind ≠ .identifier ∧ d = ⟨parts, none⟩)) := by
  cases hp : parseParts initialClasses (clex decl) with
  | error e =>
    rw [mkTypeDecl_err decl e hp] at h
    exact absurd h (by simp)
  | ok parts =>
    cases hl : parts.getLast? with
    | none =>
      have hnil : parts = [] := by
        cases parts with
        | nil => rfl
        | cons q qs => simp [List.getLast?_cons] at hl
      subst hnil
      rw [mkTypeDecl_empty decl hp] at h
      exact absurd h (by simp)
    | some lastp =>
      by_cases hk : lastp.kind = .identifier
      · rw [mkTypeDecl_ok_id decl parts lastp hp hl hk] at h
        exact ⟨parts, lastp, rfl, hl, Or.inl ⟨hk, (Except.ok.inj h).symm⟩⟩
      · rw [mkTypeDecl_ok_noid decl parts lastp hp hl hk] at h
        exact ⟨parts, lastp, rfl, hl, Or.inr ⟨hk, (Except.ok.inj h).symm⟩⟩

theorem getLast?_ne_nil {α : Type} (l : List α) (a : α) (h : l.getLast? = some a) : l ≠ [] := by
  intro h0
  subst h0
  simp at h

/-- C7 roundtrip core: the rendered text of a parsed declaration re-lexes to
the flattened part tokens. -/
theorem clex_render (parts : List TypePart) (hne : parts ≠ [])
    (htok : ∀ p ∈ parts, p.tokens ≠ [] ∧ ∀ t ∈ p.tokens, TokOK t) (lastp : TypePart)
    (hl : parts.getLast? = some lastp) :
    (clex (renderTypeDecl ⟨parts.dropLast, some lastp⟩) = flattenTokens parts ∧
     clex (renderTypeDecl ⟨parts, none⟩) = flattenTokens parts) := by
  have hflat_ok : ∀ t ∈ flattenTokens parts, TokOK t := by
    intro t ht
    rcases mem_flattenTokens parts t ht with ⟨p, hp, htp⟩
    exact (htok p hp).2 t htp
  have hlast : parts.getLast hne = lastp := by
    have := List.getLast?_eq_getLast parts hne
    rw [hl] at this
    exact (Option.some_inj.mp this).symm
  have hsplit : parts.dropLast ++ [lastp] = parts := by
    rw [← hlast]
    exact List.dropLast_append_getLast hne
  constructor
  · show clex (joinSpace (parts.dropLast.map partRepr) ++ ' ' :: partRepr lastp)
      = flattenTokens parts
    cases hdl : parts.dropLast with
    | nil =>
      have hparts : parts = [lastp] := by rw [← hsplit, hdl]; rfl
      show clexW (' ' :: partRepr lastp) [] = flattenTokens parts
      rw [clexW_space ' ' (partRepr lastp) [] (by decide)]
      show clexW (joinSpace lastp.tokens) [] = flattenTokens parts
      rw [← clex_eq_clexW,
        clex_joinSpace lastp.tokens (fun t ht => (htok lastp (by rw [hparts]; simp)).2 t ht),
        hparts]
      simp [flattenTokens]
    | cons q qs =>
      rw [← hdl]
      have hdlne : parts.dropLast ≠ [] := by rw [hdl]; simp
      have hdtok : ∀ p ∈ parts.dropLast, p.tokens ≠ [] := by
        intro p hp
        exact (htok p (by rw [← hsplit]; exact List.mem_append_left _ hp)).1
      rw [joinSpace_map_partRepr parts.dropLast hdtok]
      show clex (joinSpace (flattenTokens parts.dropLast) ++ ' ' :: joinSpace lastp.tokens)
        = flattenTokens parts
      have h1 : flattenTokens parts.dropLast ≠ [] := flattenTokens_ne_nil _ hdlne hdtok
      have h2 : lastp.tokens ≠ [] :=
        (htok lastp (by rw [← hsplit]; exact List.mem_append_right _ (by simp))).1
      rw [← joinSpace_append (flattenTokens parts.dropLast) lastp.tokens h1 h2]
      have h3 : flattenTokens parts.dropLast ++ lastp.tokens = flattenTokens parts := by
        rw [← hsplit]
        unfold flattenTokens
        simp
      rw [h3]
      exact clex_joinSpace (flattenTokens parts) hflat_ok
  · show clex (joinSpace (parts.map partRepr)) = flattenTokens parts
    rw [joinSpace_map_partRepr parts (fun p hp => (htok p hp).1)]
    exact clex_joinSpace (flattenTokens parts) hflat_ok

theorem roundtripAux (s : List Char) (d : TypeDecl) (h : mkTypeDecl s = .ok d) :
    mkTypeDecl (renderTypeDecl d) = .ok d := by
  obtain ⟨parts, lastp, hp, hl, hcase⟩ := mkTypeDecl_inv s d h
  have hne : parts ≠ [] := getLast?_ne_nil parts lastp hl
  have htoks := parseParts_tokens initialClasses (clex s) parts hp
  have htok : ∀ p ∈ parts, p.tokens ≠ [] ∧ ∀ t ∈ p.tokens, TokOK t :=
    fun p hp' => ⟨(htoks p hp').1, fun t ht => clex_ok s t ((htoks p hp').2 t ht)⟩
  have hre := parseParts_reparse initialClasses (clex s) parts hp
  rcases hcase with ⟨hk, rfl⟩ | ⟨hk, rfl⟩
  · have hclex := (clex_render parts hne htok lastp hl).1
    have hp2 : parseParts initialClasses
        (clex (renderTypeDecl ⟨parts.dropLast, some lastp⟩)) = .ok parts := by
      rw [hclex]; exact hre
    exact mkTypeDecl_ok_id _ parts lastp hp2 hl hk
  · have hclex := (clex_render parts hne htok lastp hl).2
    have hp2 : parseParts initialClasses
        (clex (renderTypeDecl ⟨parts, none⟩)) = .ok parts := by
      rw [hclex]; exact hre
    exact mkTypeDecl_ok_noid _ parts lastp hp2 hl hk

theorem getLast?_mem {α : Type} (l : List α) (a : α) (h : l.getLast? = some a) : a ∈ l := by
  have hne := getLast?_ne_nil l a h
  have h2 := List.getLast?_eq_getLast l hne
  rw [h] at h2
  have h3 := Option.some_inj.mp h2
  rw [h3]
  exact List.getLast_mem hne

theorem tryClasses_mem (next : List PartKind) (t : Tok) (k : PartKind) (n : Nat)
    (h : tryClasses next t = some (k, n)) : k ∈ next ∧ matchPart k t = n ∧ n ≠ 0 := by
  induction next with
  | nil => simp [tryClasses] at h
  | cons k0 ks ih =>
    by_cases h0 : matchPart k0 t = 0
    · rw [show tryClasses (k0 :: ks) t = tryClasses ks t from by simp [tryClasses, h0]] at h
      rcases ih h with ⟨h1, h2, h3⟩
      exact ⟨List.mem_cons_of_mem k0 h1, h2, h3⟩
    · rw [show tryClasses (k0 :: ks) t = some (k0, matchPart k0 t) from by
        simp [tryClasses, h0]] at h
      have := Prod.mk.inj (Option.some_inj.mp h)
      rcases this with ⟨rfl, rfl⟩
      exact ⟨by simp, rfl, h0⟩

theorem matchPart_not_ts (k : PartKind) (t : Tok) (hk : k ≠ PartKind.typeSpecifier) :
    matchPart k t = 0 ∨ matchPart k t = 1 := by
  cases k with
  | typeSpecifier => exact absurd rfl hk
  | typeQualifier =>
    show matchTypeQualifier t = 0 ∨ matchTypeQualifier t = 1
    unfold matchTypeQualifier
    split <;> simp
  | pointer =>
    show matchPointer t = 0 ∨ matchPointer t = 1
    unfold matchPointer
    split <;> simp
  | identifier =>
    show matchIdentifier t = 0 ∨ matchIdentifier t = 1
    unfold matchIdentifier
    split <;> simp
  | cEllipsis =>
    show matchCEllipsis t = 0 ∨ matchCEllipsis t = 1
    unfold matchCEllipsis
    split <;> simp
  | sysConstant =>
    show matchSYSConstant t = 0 ∨ matchSYSConstant t = 1
    unfold matchSYSConstant
    split <;> simp

/-- A token of the generic typedef shape, or of the extra whitelist, matches
the type-specifier class with one token. -/
theorem matchTS_of_extra (t : Tok) (h : matchesExtraRe t = true ∨ t ∈ TYPE_SPECIFIERS_EXTRA) :
    matchTypeSpecifier t = 1 := by
  unfold matchTypeSpecifier
  rw [if_pos]
  rcases h with h1 | h1
  · exact Or.inr (Or.inr h1)
  · exact Or.inr (Or.inl h1)

theorem extra_not_ignore (t : Tok) (h : matchesExtraRe t = true ∨ t ∈ TYPE_SPECIFIERS_EXTRA) :
    t ∉ IGNORE_TOKEN := by
  intro hig
  simp only [IGNORE_TOKEN, List.mem_cons, List.not_mem_nil, or_false] at hig
  rcases hig with rfl | rfl <;> rcases h with h1 | h1 <;> revert h1 <;> decide

theorem extra_not_ellipsis (t : Tok)
    (h : matchesExtraRe t = true ∨ t ∈ TYPE_SPECIFIERS_EXTRA) : matchCEllipsis t = 0 := by
  unfold matchCEllipsis
  rw [if_neg]
  intro heq
  subst heq
  rcases h with h1 | h1 <;> revert h1 <;> decide

theorem tryClasses_extra (next : List PartKind) (t : Tok)
    (h : matchesExtraRe t = true ∨ t ∈ TYPE_SPECIFIERS_EXTRA)
    (hsys : listPre "SYS_".data t = false)
    (hstate : next = initialClasses
      ∨ next = [PartKind.typeSpecifier, PartKind.typeQualifier, PartKind.pointer,
                PartKind.identifier]) :
    tryClasses next t = some (PartKind.typeSpecifier, 1) := by
  have hts := matchTS_of_extra t h
  have hce := extra_not_ellipsis t h
  have hsy : matchSYSConstant t = 0 := by unfold matchSYSConstant; simp [hsys]
  rcases hstate with rfl | rfl
  · show tryClasses [PartKind.cEllipsis, PartKind.sysConstant, PartKind.typeSpecifier,
      PartKind.typeQualifier] t = _
    rw [show tryClasses [PartKind.cEllipsis, PartKind.sysConstant, PartKind.typeSpecifier,
        PartKind.typeQualifier] t
      = tryClasses [PartKind.sysConstant, PartKind.typeSpecifier, PartKind.typeQualifier] t from
        by simp [tryClasses, matchPart, hce]]
    rw [show tryClasses [PartKind.sysConstant, PartKind.typeSpecifier, PartKind.typeQualifier] t
      = tryClasses [PartKind.typeSpecifier, PartKind.typeQualifier] t from
        by simp [tryClasses, matchPart, hsy]]
    simp [tryClasses, matchPart, hts]
  · simp [tryClasses, matchPart, hts]

theorem c10_aux (next : List PartKind) (toks : List Tok) :
    ∀ parts t, parseParts next toks = .ok parts →
      toks.getLast? = some t →
      (matchesExtraRe t = true ∨ t ∈ TYPE_SPECIFIERS_EXTRA) →
      listPre "SYS_".data t = false →
      ("*".data : Tok) ∉ toks →
      (next = initialClasses
        ∨ next = [PartKind.typeSpecifier, PartKind.typeQualifier, PartKind.pointer,
                  PartKind.identifier]) →
      ∃ p, parts.getLast? = some p ∧ p.kind = PartKind.typeSpecifier ∧ t ∈ p.tokens := by
  induction next, toks using parseParts.induct with
  | case1 x =>
    intro parts t _ hlast _ _ _ _
    simp at hlast
  | case2 next t0 ts hig ih =>
    intro parts t h hlast hex hsys hstar hstate
    rw [parseParts_cons_ignore next t0 ts hig] at h
    cases ts with
    | nil =>
      simp only [List.getLast?_singleton, Option.some_inj] at hlast
      subst hlast
      exact absurd hig (extra_not_ignore t0 hex)
    | cons a as =>
      rw [List.getLast?_cons_cons] at hlast
      exact ih parts t h hlast hex hsys (fun hm => hstar (List.mem_cons_of_mem t0 hm)) hstate
  | case3 next t0 ts hig htry =>
    intro parts t h _ _ _ _ _
    rw [parseParts_cons_nomatch next t0 ts hig htry] at h
    exact absurd h (by simp)
  | case4 next t0 ts hig k e herr htry ih =>
    intro parts t h _ _ _ _ _
    rw [parseParts_cons_one_err next t0 ts k e hig htry herr] at h
    exact absurd h (by simp)
  | case5 next t0 ts hig k rest hok htry ih =>
    intro parts t h hlast hex hsys hstar hstate
    rw [parseParts_cons_one_ok next t0 ts k rest hig htry hok] at h
    have hp' : parts = ⟨k, [t0]⟩ :: rest := by simpa using h.symm
    subst hp'
    cases ts with
    | nil =>
      simp only [List.getLast?_singleton, Option.some_inj] at hlast
      subst hlast
      have h1 := tryClasses_extra next t0 hex hsys hstate
      rw [htry] at h1
      have h2 := Prod.mk.inj (Option.some_inj.mp h1)
      have hrest : rest = [] := by simpa [parseParts] using hok.symm
      subst hrest
      exact ⟨⟨k, [t0]⟩, by simp, by simp [h2.1], by simp⟩
    | cons a as =>
      rw [List.getLast?_cons_cons] at hlast
      have hstar' : ("*".data : Tok) ∉ a :: as :=
        fun hm => hstar (List.mem_cons_of_mem t0 hm)
      cases k with
      | typeSpecifier =>
        rcases ih rest t hok hlast hex hsys hstar' (Or.inr rfl) with ⟨p, hp1, hp2, hp3⟩
        refine ⟨p, ?_, hp2, hp3⟩
        have hrne : rest ≠ [] := getLast?_ne_nil rest p hp1
        cases rest with
        | nil => exact absurd rfl hrne
        | cons r rs => rw [List.getLast?_cons_cons]; exact hp1
      | typeQualifier =>
        rcases ih rest t hok hlast hex hsys hstar' (Or.inr rfl) with ⟨p, hp1, hp2, hp3⟩
        refine ⟨p, ?_, hp2, hp3⟩
        have hrne : rest ≠ [] := getLast?_ne_nil rest p hp1
        cases rest with
        | nil => exact absurd rfl hrne
        | cons r rs => rw [List.getLast?_cons_cons]; exact hp1
      | pointer =>
        exfalso
        rcases tryClasses_mem next t0 _ _ htry with ⟨_, hm, hn⟩
        have : t0 = "*".data := by
          by_contra hne
          exact hn (by simpa [matchPart, matchPointer, hne] using hm.symm)
        subst this
        exact hstar (by simp)
      | identifier =>
        exfalso
        rcases parseParts_nil_classes (a :: as) rest hok with ⟨_, hall⟩
        have := hall t (getLast?_mem (a :: as) t hlast)
        exact extra_not_ignore t hex this
      | cEllipsis =>
        exfalso
        rcases parseParts_nil_classes (a :: as) rest hok with ⟨_, hall⟩
        have := hall t (getLast?_mem (a :: as) t hlast)
        exact extra_not_ignore t hex this
      | sysConstant =>
        exfalso
        rcases parseParts_nil_classes (a :: as) rest hok with ⟨_, hall⟩
        have := hall t (getLast?_mem (a :: as) t hlast)
        exact extra_not_ignore t hex this
  | case6 next t0 hig k n htry hn =>
    intro parts t h hlast hex hsys hstar hstate
    simp only [List.getLast?_singleton, Option.some_inj] at hlast
    subst hlast
    have h1 := tryClasses_extra next t0 hex hsys hstate
    rw [htry] at h1
    have h2 := Prod.mk.inj (Option.some_inj.mp h1)
    exact absurd h2.2 hn
  | case7 next t0 hig k n htry hn t2 ts2 e herr ih =>
    intro parts t h _ _ _ _ _
    rw [parseParts_cons_two_err next t0 t2 ts2 k n e hig htry hn herr] at h
    exact absurd h (by simp)
  | case8 next t0 hig k n htry hn t2 ts2 rest hok ih =>
    intro parts t h hlast hex hsys hstar hstate
    rw [parseParts_cons_two_ok next t0 t2 ts2 k n rest hig htry hn hok] at h
    have hp' : parts = ⟨k, [t0, t2]⟩ :: rest := by simpa using h.symm
    subst hp'
    have hkts : k = PartKind.typeSpecifier := by
      rcases tryClasses_mem next t0 _ _ htry with ⟨_, hm, hn0⟩
      by_contra hne
      rcases matchPart_not_ts k t0 hne with h0 | h0
      · rw [hm] at h0; exact hn0 h0
      · rw [hm] at h0; exact hn h0
    subst hkts
    cases ts2 with
    | nil =>
      have hrest : rest = [] := by simpa [parseParts] using hok.symm
      subst hrest
      rw [List.getLast?_cons_cons, List.getLast?_singleton, Option.some_inj] at hlast
      subst hlast
      exact ⟨⟨PartKind.typeSpecifier, [t0, t2]⟩, by simp, rfl, by simp⟩
    | cons b bs =>
      rw [List.getLast?_cons_cons, List.getLast?_cons_cons] at hlast
      have hstar' : ("*".data : Tok) ∉ b :: bs :=
        fun hm => hstar (List.mem_cons_of_mem t0 (List.mem_cons_of_mem t2 hm))
      rcases ih rest t hok hlast hex hsys hstar' (Or.inr rfl) with ⟨p, hp1, hp2, hp3⟩
      refine ⟨p, ?_, hp2, hp3⟩
      have hrne : rest ≠ [] := getLast?_ne_nil rest p hp1
      cases rest with
      | nil => exact absurd rfl hrne
      | cons r rs => rw [List.getLast?_cons_cons]; exact hp1

theorem c10Aux2 (s : List Char) (d : TypeDecl) (t : Tok)
    (h : mkTypeDecl s = .ok d)
    (hlast : (clex s).getLast? = some t)
    (hex : matchesExtraRe t = true ∨ t ∈ TYPE_SPECIFIERS_EXTRA)
    (hsys : listPre "SYS_".data t = false)
    (hstar : ("*".data : Tok) ∉ clex s) :
    d.identifier = none ∧ ∃ p ∈ d.typespec, p.kind = PartKind.typeSpecifier ∧ t ∈ p.tokens := by
  obtain ⟨parts, lastp, hp, hl, hcase⟩ := mkTypeDecl_inv s d h
  rcases c10_aux initialClasses (clex s) parts t hp hlast hex hsys hstar (Or.inl rfl)
    with ⟨p, hp1, hp2, hp3⟩
  rw [hl] at hp1
  have hpl : p = lastp := Option.some_inj.mp hp1.symm
  subst hpl
  rcases hcase with ⟨hk, _⟩ | ⟨_, rfl⟩
  · rw [hp2] at hk; exact absurd hk (by simp)
  · exact ⟨rfl, ⟨p, getLast?_mem parts p hl, hp2, hp3⟩⟩

theorem c8Aux (toks : List Tok) (parts : List TypePart)
    (h : parseParts initialClasses toks = .ok parts) :
    (∀ p ∈ parts.dropLast, p.kind ≠ PartKind.identifier) ∧
    (parts.filter (fun p => decide (p.kind = PartKind.identifier))).length ≤ 1 := by
  have h1 := parseParts_ident_last initialClasses toks parts h
  refine ⟨h1, ?_⟩
  cases hp : parts.getLast? with
  | none =>
    have : parts = [] := by
      cases parts with
      | nil => rfl
      | cons q qs => simp [List.getLast?_cons] at hp
    subst this
    simp
  | some lastp =>
    have hne : parts ≠ [] := getLast?_ne_nil parts lastp hp
    have hsplit : parts.dropLast ++ [lastp] = parts := by
      have h2 := List.getLast?_eq_getLast parts hne
      rw [hp] at h2
      rw [Option.some_inj.mp h2]
      exact List.dropLast_append_getLast hne
    rw [← hsplit, List.filter_append]
    have hdrop : (parts.dropLast.filter (fun p => decide (p.kind = PartKind.identifier))) = [] := by
      rw [List.filter_eq_nil_iff]
      intro a ha
      simp only [decide_eq_true_eq]
      exact h1 a ha
    rw [hdrop]
    simp only [List.nil_append, List.length_filter_le]
    have := List.length_filter_le (fun p => decide (p.kind = PartKind.identifier)) [lastp]
    simpa using this

theorem fundeclParse_split (decl g1 g2 : List Char) (h : fundeclSplit decl = some (g1, g2)) :
    fundeclParse decl = fundeclParseAfterSplit decl g1 g2 := by
  simp [fundeclParse, h]

theorem fundeclFinish_noid (decl : List Char) (left : TypeDecl) (params0 : List TypeDecl)
    (h : left.identifier = none) : fundeclFinish decl left params0 = .error (declError decl) := by
  simp [fundeclFinish, h]

theorem fundeclFinish_empty_name (decl : List Char) (left : TypeDecl) (params0 : List TypeDecl)
    (idp : TypePart) (h : left.identifier = some idp) (h2 : idp.tokens = []) :
    fundeclFinish decl left params0 = .error .indexError := by
  simp [fundeclFinish, h, h2]

theorem fundeclFinish_name (decl : List Char) (left : TypeDecl) (params0 : List TypeDecl)
    (idp : TypePart) (name : Tok) (nrest : List Tok)
    (h : left.identifier = some idp) (h2 : idp.tokens = name :: nrest) :
    fundeclFinish decl left params0
      = fundeclChecks decl name ⟨left.typespec, none⟩ (voidNormalize params0) := by
  simp [fundeclFinish, h, h2]

theorem voidNormalize_long (params0 : List TypeDecl) (h : 2 ≤ params0.length) :
    voidNormalize params0 = params0 := by
  cases params0 with
  | nil => rfl
  | cons a as =>
    cases as with
    | nil => simp at h
    | cons b bs => rfl

theorem c6Aux (decl g1 g2 : List Char) (ps : List TypeDecl) (p : TypeDecl)
    (hsplit : fundeclSplit decl = some (g1, g2))
    (hps : parseParams (splitComma g2) = .ok ps)
    (hmem : p ∈ ps.dropLast)
    (hell : isSoleKind PartKind.cEllipsis p = true) :
    ∃ e, fundeclParse decl = .error e := by
  rw [fundeclParse_split decl g1 g2 hsplit]
  unfold fundeclParseAfterSplit
  cases hleft : mkTypeDecl g1 with
  | error e => cases e <;> exact ⟨_, rfl⟩
  | ok left =>
    rw [hps]
    show ∃ e, fundeclFinish decl left ps = .error e
    cases hid : left.identifier with
    | none => exact ⟨_, fundeclFinish_noid decl left ps hid⟩
    | some idp =>
      cases htk : idp.tokens with
      | nil => exact ⟨_, fundeclFinish_empty_name decl left ps idp hid htk⟩
      | cons name nrest =>
        rw [fundeclFinish_name decl left ps idp name nrest hid htk]
        have hlen : 2 ≤ ps.length := by
          have hne : ps.dropLast ≠ [] := List.ne_nil_of_mem hmem
          cases ps with
          | nil => simp at hne
          | cons a as =>
            cases as with
            | nil => simp at hne
            | cons b bs => simp
        rw [voidNormalize_long ps hlen]
        have hany : (ps.dropLast.any (isSoleKind PartKind.cEllipsis)) = true :=
          List.any_eq_true.mpr ⟨p, hmem, hell⟩
        refine ⟨declError decl, ?_⟩
        unfold fundeclChecks
        rw [if_pos]
        exact hany

theorem parenSplits_none (ys : List Char) (h : '(' ∉ ys) : parenSplits ys = [] := by
  induction ys with
  | nil => rfl
  | cons c cs ih =>
    have hc : c ≠ '(' := fun hh => h (hh ▸ List.mem_cons_self c cs)
    have hcs : '(' ∉ cs := fun hh => h (List.mem_cons_of_mem c hh)
    simp [parenSplits, hc, ih hcs]

theorem parenSplits_shift (xs : List Char) (rest : List Char) (h : '(' ∉ xs) :
    parenSplits (xs ++ rest) = (parenSplits rest).map (fun p => (xs ++ p.1, p.2)) := by
  induction xs with
  | nil => simp
  | cons c cs ih =>
    have hc : c ≠ '(' := fun hh => h (hh ▸ List.mem_cons_self c cs)
    have hcs : '(' ∉ cs := fun hh => h (List.mem_cons_of_mem c hh)
    rw [List.cons_append]
    show parenSplits (c :: (cs ++ rest)) = _
    rw [show parenSplits (c :: (cs ++ rest))
        = (if c = '(' then [(([] : List Char), cs ++ rest)] else [])
          ++ (parenSplits (cs ++ rest)).map (fun p => (c :: p.1, p.2)) from rfl]
    rw [if_neg hc, ih hcs]
    simp [List.map_map]

theorem parenSplits_cons_paren (ys : List Char) :
    parenSplits ('(' :: ys)
      = (([] : List Char), ys) :: (parenSplits ys).map (fun p => ('(' :: p.1, p.2)) := by
  rfl

theorem all_word_not_mem (name : Tok) (h : name.all isWordChar = true) (c : Char)
    (hc : isWordChar c = false) : c ∉ name := by
  intro hm
  have := List.all_eq_true.mp h c hm
  rw [hc] at this
  exact absurd this (by simp)

theorem stripSemi_no_semi (s : List Char) (h : s.getLast? ≠ some ';') : stripSemi s = s := by
  simp [stripSemi, h]

theorem c1_split (name : Tok) (hword : name.all isWordChar = true) :
    fundeclSplit ("long ".data ++ name ++ c1Tail)
      = some ("long ".data ++ name, c1Post) := by
  have hA : '(' ∉ "long ".data ++ name := by
    simp only [List.mem_append]
    rintro (h1 | h1)
    · revert h1; decide
    · exact all_word_not_mem name hword '(' (by decide) h1
  have hlast : ("long ".data ++ name ++ c1Tail).getLast? = some ')' := by
    rw [List.getLast?_append, show c1Tail.getLast? = some ')' from by decide]
    rfl
  have hs1 : stripSemi ("long ".data ++ name ++ c1Tail) = "long ".data ++ name ++ c1Tail :=
    stripSemi_no_semi _ (by rw [hlast]; decide)
  unfold fundeclSplit
  rw [hs1, hlast, if_pos rfl]
  have hdrop : ("long ".data ++ name ++ c1Tail).dropLast
      = ("long ".data ++ name) ++ ('(' :: c1Post) := by
    rw [List.dropLast_append_of_ne_nil _ (by decide),
      show c1Tail.dropLast = '(' :: c1Post from by decide]
  rw [hdrop, parenSplits_shift _ _ hA, parenSplits_cons_paren,
    parenSplits_none c1Post (by decide)]
  have hvalid : validSplit ("long ".data ++ name, c1Post) = true := by
    unfold validSplit
    have h1 : ("long ".data ++ name ≠ []) := by simp
    have h2 : ';' ∉ "long ".data ++ name := by
      simp only [List.mem_append]
      rintro (hh | hh)
      · revert hh; decide
      · exact all_word_not_mem name hword ';' (by decide) hh
    have h3 : ')' ∉ c1Post := by decide
    simp only [Bool.and_eq_true, decide_eq_true_eq]
    exact ⟨⟨h1, h2⟩, h3⟩
  simp only [List.map_cons, List.map_nil, List.append_nil]
  rw [List.filter_cons_of_pos hvalid]
  rfl

theorem c1_clex_left (name : Tok) (hne : name ≠ []) (hword : name.all isWordChar = true) :
    clex ("long ".data ++ name) = ["long".data, name] := by
  show clexW ("long".data ++ (' ' :: name)) [] = _
  rw [clexW_run "long".data (' ' :: name) [] (by decide)]
  simp only [List.nil_append]
  rw [clexW_space ' ' name "long".data (by decide),
    clexW_token_end name (Or.inl ⟨hne, hword⟩)]
  rfl

/-- Classification of a one-token left-over list in the state after a type
specifier, when the token is itself specifier-like. -/
theorem parse_after_ts_spec (name : Tok) (hig : name ∉ IGNORE_TOKEN)
    (h1 : matchTypeSpecifier name ≠ 0) :
    parseParts (allowafter .typeSpecifier) [name] = .ok [⟨.typeSpecifier, [name]⟩] := by
  have htry : tryClasses (allowafter .typeSpecifier) name
      = some (.typeSpecifier, matchTypeSpecifier name) := by
    simp [allowafter, tryClasses, matchPart, h1]
  by_cases hn : matchTypeSpecifier name = 1
  · rw [hn] at htry
    exact parseParts_cons_one_ok _ name [] _ [] hig htry rfl
  · exact parseParts_cons_two_nil _ name _ _ hig htry hn

theorem parse_after_ts_qual (name : Tok) (hig : name ∉ IGNORE_TOKEN)
    (h0 : matchTypeSpecifier name = 0) (hq : name ∈ TYPE_QUALIFIERS) :
    parseParts (allowafter .typeSpecifier) [name] = .ok [⟨.typeQualifier, [name]⟩] := by
  have htry : tryClasses (allowafter .typeSpecifier) name = some (.typeQualifier, 1) := by
    simp [allowafter, tryClasses, matchPart, h0, matchTypeQualifier, hq]
  exact parseParts_cons_one_ok _ name [] _ [] hig htry rfl

theorem parse_after_ts_ident (name : Tok) (hig : name ∉ IGNORE_TOKEN)
    (h0 : matchTypeSpecifier name = 0) (hq : name ∉ TYPE_QUALIFIERS)
    (hp : name ≠ ['*']) (hid : matchesIdentRe name = true) :
    parseParts (allowafter .typeSpecifier) [name] = .ok [⟨.identifier, [name]⟩] := by
  have htry : tryClasses (allowafter .typeSpecifier) name = some (.identifier, 1) := by
    simp [allowafter, tryClasses, matchPart, h0, matchTypeQualifier, hq, matchPointer, hp,
      matchIdentifier, hid]
  exact parseParts_cons_one_ok _ name [] _ [] hig htry rfl

theorem parse_after_ts_none (name : Tok) (hig : name ∉ IGNORE_TOKEN)
    (h0 : matchTypeSpecifier name = 0) (hq : name ∉ TYPE_QUALIFIERS)
    (hp : name ≠ ['*']) (hid : matchesIdentRe name = false) :
    parseParts (allowafter .typeSpecifier) [name]
      = .error ("Cannot match tokens at: ".data ++ joinSpace [name]) := by
  have htry : tryClasses (allowafter .typeSpecifier) name = none := by
    simp [allowafter, tryClasses, matchPart, h0, matchTypeQualifier, hq, matchPointer, hp,
      matchIdentifier, hid]
  exact parseParts_cons_nomatch _ name [] hig htry

theorem c1_params_eval : parseParams (splitComma c1Post) = .ok c1Params := by decide

theorem c1_checks_eval (name : Tok) (hnsys : name ≠ "syscall".data) :
    fundeclChecks ("long ".data ++ name ++ c1Tail) name ⟨[tsP "long"], none⟩
      (voidNormalize c1Params)
      = .error (declError ("long ".data ++ name ++ c1Tail)) := by
  rw [show voidNormalize c1Params = c1Params from rfl]
  unfold fundeclChecks
  rw [if_neg (by decide), if_neg (by decide)]
  have hsys : decide (name = "syscall".data) = false := decide_eq_false hnsys
  simp only [hsys]
  rw [if_pos]
  decide

theorem c1Aux (name : Tok) (hne : name ≠ [])
    (hword : name.all isWordChar = true) (hnsys : name ≠ "syscall".data) :
    ∃ e, fundeclParse ("long ".data ++ name ++ c1Tail) = .error e := by
  rw [fundeclParse_split _ _ _ (c1_split name hword)]
  unfold fundeclParseAfterSplit
  have hclex : clex ("long ".data ++ name) = ["long".data, name] := c1_clex_left name hne hword
  have hlongig : ("long".data : Tok) ∉ IGNORE_TOKEN := by decide
  have htrylong : tryClasses initialClasses "long".data = some (.typeSpecifier, 1) := by decide
  have hstar : name ≠ ['*'] := by
    intro hh
    exact absurd (List.all_eq_true.mp hword '*' (by rw [hh]; simp)) (by decide)
  by_cases hig : name ∈ IGNORE_TOKEN
  · have hp : parseParts initialClasses (clex ("long ".data ++ name))
        = .ok [⟨.typeSpecifier, ["long".data]⟩] := by
      rw [hclex]
      exact parseParts_cons_one_ok initialClasses "long".data [name] _ [] hlongig htrylong
        (by rw [parseParts_cons_ignore _ name [] hig]; rfl)
    rw [mkTypeDecl_ok_noid _ _ ⟨.typeSpecifier, ["long".data]⟩ hp (by simp) (by decide),
      c1_params_eval]
    show ∃ e, fundeclFinish ("long ".data ++ name ++ c1Tail)
      ⟨[⟨.typeSpecifier, ["long".data]⟩], none⟩ c1Params = .error e
    exact ⟨_, fundeclFinish_noid _ _ _ rfl⟩
  · by_cases hTS : matchTypeSpecifier name = 0
    · by_cases hQ : name ∈ TYPE_QUALIFIERS
      · have hp : parseParts initialClasses (clex ("long ".data ++ name))
            = .ok [⟨.typeSpecifier, ["long".data]⟩, ⟨.typeQualifier, [name]⟩] := by
          rw [hclex]
          exact parseParts_cons_one_ok initialClasses "long".data [name] _ _ hlongig htrylong
            (parse_after_ts_qual name hig hTS hQ)
        rw [mkTypeDecl_ok_noid _ _ ⟨.typeQualifier, [name]⟩ hp (by simp) (by simp),
          c1_params_eval]
        show ∃ e, fundeclFinish ("long ".data ++ name ++ c1Tail)
          ⟨[⟨.typeSpecifier, ["long".data]⟩, ⟨.typeQualifier, [name]⟩], none⟩ c1Params
          = .error e
        exact ⟨_, fundeclFinish_noid _ _ _ rfl⟩
      · by_cases hId : matchesIdentRe name = true
        · have hp : parseParts initialClasses (clex ("long ".data ++ name))
              = .ok [⟨.typeSpecifier, ["long".data]⟩, ⟨.identifier, [name]⟩] := by
            rw [hclex]
            exact parseParts_cons_one_ok initialClasses "long".data [name] _ _ hlongig htrylong
              (parse_after_ts_ident name hig hTS hQ hstar hId)
          rw [mkTypeDecl_ok_id _ _ ⟨.identifier, [name]⟩ hp (by simp) rfl, c1_params_eval]
          show ∃ e, fundeclFinish ("long ".data ++ name ++ c1Tail)
            ⟨[⟨.typeSpecifier, ["long".data]⟩], some ⟨.identifier, [name]⟩⟩ c1Params = .error e
          rw [fundeclFinish_name _ _ _ ⟨.identifier, [name]⟩ name [] rfl rfl]
          exact ⟨_, c1_checks_eval name hnsys⟩
        · have hp : parseParts initialClasses (clex ("long ".data ++ name))
              = .error ("Cannot match tokens at: ".data ++ joinSpace [name]) := by
            rw [hclex]
            exact parseParts_cons_one_err initialClasses "long".data [name] _ _ hlongig htrylong
              (parse_after_ts_none name hig hTS hQ hstar (by simpa using hId))
          rw [mkTypeDecl_err _ _ hp]
          exact ⟨_, rfl⟩
    · have hp : parseParts initialClasses (clex ("long ".data ++ name))
          = .ok [⟨.typeSpecifier, ["long".data]⟩, ⟨.typeSpecifier, [name]⟩] := by
        rw [hclex]
        exact parseParts_cons_one_ok initialClasses "long".data [name] _ _ hlongig htrylong
          (parse_after_ts_spec name hig hTS)
      rw [mkTypeDecl_ok_noid _ _ ⟨.typeSpecifier, [name]⟩ hp (by simp) (by simp),
        c1_params_eval]
      show ∃ e, fundeclFinish ("long ".data ++ name ++ c1Tail)
        ⟨[⟨.typeSpecifier, ["long".data]⟩, ⟨.typeSpecifier, [name]⟩], none⟩ c1Params = .error e
      exact ⟨_, fundeclFinish_noid _ _ _ rfl⟩

theorem c9Aux (d : TypeDecl) (idp : TypePart) (nm : Tok) (nrest : List Tok)
    (s : Tok) (hid : d.identifier = some idp) (htk : idp.tokens = nm :: nrest)
    (hnm : nm = "argv".data ∨ nm = "envp".data)
    (hbase : simplifyBase d = .ok s) (hs : s ≠ "CHAR_PP".data) :
    simplify d = .ok s := by
  rcases hnm with rfl | rfl
  · simp only [simplify, hbase, hid, htk,
      show SPECIAL_NAMES.find? (fun kv => kv.1 == "argv".data)
        = some ("argv".data, ("CHAR_PP".data, "ARGV".data)) from by decide]
    rw [if_neg hs]
  · simp only [simplify, hbase, hid, htk,
      show SPECIAL_NAMES.find? (fun kv => kv.1 == "envp".data)
        = some ("envp".data, ("CHAR_PP".data, "ENVP".data)) from by decide]
    rw [if_neg hs]
/-- C1: parsing the prototype "long syscall(SYS_read, int fd, char *buf,
size_t count)" yields the syscall-style declaration whose name is "read"
and whose stored parameter list has exactly 3 parameters, the SYS_read
pseudo-constant excluded; and for every function name other than "syscall"
(any nonempty word-character token), the same-shaped prototype fails to
parse, the name and pseudo-constant reconciliation check being violated. -/
theorem c1_syscall_pseudo_constant :
    (fundeclParse "long syscall(SYS_read, int fd, char *buf, size_t count)".data
      = .ok c1Expected) ∧
    c1Expected.style = FunStyle.sys ∧
    c1Expected.name = "read".data ∧
    c1Expected.param_list.length = 3 ∧
    (∀ name : Tok, name ≠ [] → name.all isWordChar = true → name ≠ "syscall".data →
      ∃ e, fundeclParse ("long ".data ++ name ++ c1Tail) = .error e) :=
  ⟨by decide, by decide, by decide, by decide, c1Aux⟩

/-- Witness for C1: the universal part applied to the concrete non-syscall
function name "foo". -/
theorem c1_syscall_pseudo_constant_witness :
    ∃ e, fundeclParse ("long ".data ++ "foo".data ++ c1Tail) = .error e :=
  c1_syscall_pseudo_constant.2.2.2.2 "foo".data (by decide) (by decide) (by decide)

/-- C2: the claim that fundecl.parse raises only ValueError fails on the
code: the empty parameter-list text of "int foo()" makes TypeDecl index an
empty part list, and the resulting IndexError escapes the ValueError
wrapper; the particular prototype "int foo(int a)" does succeed. -/
theorem c2_error_kind_escape :
    fundeclParse "int foo()".data = .error PyErr.indexError ∧
    fundeclParse "int foo(int a)".data = .ok c2OkVal :=
  ⟨by decide, by decide⟩

/-- C3: the claim that simplify rejects "short long" and
"unsigned signed int" fails on the code: each type-specifier part holds a
single keyword and simplify scans only the first part's tokens, so both
inputs return a tag with no error. -/
theorem c3_conflicting_specifiers_no_error :
    simplifyOf "short long" = .ok "SHORT".data ∧
    simplifyOf "unsigned signed int" = .ok "UINT".data :=
  ⟨by decide, by decide⟩

/-- C4: the claim that simplify scans all specifier keywords fails on the
code: only the first specifier part's tokens are scanned, so
"unsigned long" yields UINT rather than ULONG and "long long" yields LONG
rather than LONGLONG. -/
theorem c4_integral_scan_first_keyword_only :
    simplifyOf "unsigned long" = .ok "UINT".data ∧
    simplifyOf "long long" = .ok "LONG".data :=
  ⟨by decide, by decide⟩

/-- C5: parsing "int foo(void)" yields zero parameters as claimed, but
parsing "int foo()" does not: the empty parameter text makes TypeDecl
index an empty part list, raising IndexError instead of producing a
declaration with zero parameters. -/
theorem c5_void_empty_param_lists :
    fundeclParse "int foo(void)".data = .ok c5OkVal ∧
    c5OkVal.param_list = [] ∧
    fundeclParse "int foo()".data = .error PyErr.indexError :=
  ⟨by decide, by decide, by decide⟩

/-- C6: whenever the parsed parameter list of a prototype has a
variadic-ellipsis parameter in a non-last position, fundecl.parse fails;
and a prototype whose last parameter is a sole ellipsis, such as
"int foo(int a, ...)", parses without failure. -/
theorem c6_ellipsis_only_last :
    (∀ (decl g1 g2 : List Char) (ps : List TypeDecl) (p : TypeDecl),
      fundeclSplit decl = some (g1, g2) →
      parseParams (splitComma g2) = .ok ps →
      p ∈ ps.dropLast →
      isSoleKind PartKind.cEllipsis p = true →
      ∃ e, fundeclParse decl = .error e) ∧
    fundeclParse "int foo(int a, ...)".data = .ok c6OkVal :=
  ⟨c6Aux, by decide⟩

/-- Witness for C6: the universal part applied to the prototype
"int foo(int a, ..., int b)", whose middle parameter is a sole ellipsis. -/
theorem c6_ellipsis_only_last_witness :
    ∃ e, fundeclParse "int foo(int a, ..., int b)".data = .error e :=
  c6_ellipsis_only_last.1 "int foo(int a, ..., int b)".data "int foo".data
    "int a, ..., int b".data
    [⟨[tsP "int"], some (idP "a")⟩, ⟨[ellP], none⟩, ⟨[tsP "int"], some (idP "b")⟩]
    ⟨[ellP], none⟩ (by decide) (by decide) (by decide) (by decide)

/-- C7: for every declaration string that parses successfully, re-lexing
the rendered text of the parsed declaration and re-parsing yields an equal
declaration: the same part kinds and tokens in the same order, and the
same identifier. -/
theorem c7_render_reparse_roundtrip (s : List Char) (d : TypeDecl)
    (h : mkTypeDecl s = .ok d) : mkTypeDecl (renderTypeDecl d) = .ok d :=
  roundtripAux s d h

/-- Witness for C7: the round trip at the concrete declaration "int x". -/
theorem c7_render_reparse_roundtrip_witness :
    mkTypeDecl "int x".data = .ok ⟨[tsP "int"], some (idP "x")⟩ ∧
    mkTypeDecl (renderTypeDecl ⟨[tsP "int"], some (idP "x")⟩)
      = .ok ⟨[tsP "int"], some (idP "x")⟩ :=
  ⟨by decide, c7_render_reparse_roundtrip "int x".data _ (by decide)⟩

/-- C8: in every part sequence produced by a successful run of the token
classifier, every non-last part is not an Identifier, and at most one
Identifier part occurs. -/
theorem c8_at_most_one_trailing_identifier (toks : List Tok) (parts : List TypePart)
    (h : parseParts initialClasses toks = .ok parts) :
    (∀ p ∈ parts.dropLast, p.kind ≠ PartKind.identifier) ∧
    (parts.filter (fun p => decide (p.kind = PartKind.identifier))).length ≤ 1 :=
  c8Aux toks parts h

/-- Witness for C8: the invariant at the concrete token list of "int x". -/
theorem c8_at_most_one_trailing_identifier_witness :
    (∀ p ∈ [tsP "int", idP "x"].dropLast, p.kind ≠ PartKind.identifier) ∧
    ([tsP "int", idP "x"].filter
      (fun p => decide (p.kind = PartKind.identifier))).length ≤ 1 :=
  c8_at_most_one_trailing_identifier ["int".data, "x".data] [tsP "int", idP "x"] (by decide)

/-- C9: simplifying the declaration "const char * const * argv" yields
ARGV, the same type without the identifier yields CHAR_PP, and for a
parameter named argv or envp whose computed base tag is anything other
than CHAR_PP, the override leaves the tag unchanged. -/
theorem c9_argv_envp_override :
    simplifyOf "const char * const * argv" = .ok "ARGV".data ∧
    simplifyOf "const char * const *" = .ok "CHAR_PP".data ∧
    (∀ (d : TypeDecl) (idp : TypePart) (nm : Tok) (nrest : List Tok) (s : Tok),
      d.identifier = some idp → idp.tokens = nm :: nrest →
      (nm = "argv".data ∨ nm = "envp".data) →
      simplifyBase d = .ok s → s ≠ "CHAR_PP".data → simplify d = .ok s) :=
  ⟨by decide, by decide, c9Aux⟩

/-- Witness for C9: the override leaves CHAR_P unchanged for the
declaration "char * argv". -/
theorem c9_argv_envp_override_witness :
    simplify ⟨[tsP "char", ptrP], some (idP "argv")⟩ = .ok "CHAR_P".data :=
  c9_argv_envp_override.2.2 ⟨[tsP "char", ptrP], some (idP "argv")⟩ (idP "argv")
    "argv".data [] "CHAR_P".data rfl rfl (Or.inl rfl) (by decide) (by decide)

/-- Counterexample to C10: in "int * buf_t" the final token buf_t matches
the generic typedef pattern, yet the classifier (whose legal-next state
after a Pointer omits Type Specifier) classifies it as the Identifier, so
the resulting declaration does have an identifier. -/
theorem c10_trailing_typedef_counterexample :
    matchesExtraRe "buf_t".data = true ∧
    (clex "int * buf_t".data).getLast? = some "buf_t".data ∧
    mkTypeDecl "int * buf_t".data = .ok c10CexVal ∧
    c10CexVal.identifier = some (idP "buf_t") :=
  ⟨by decide, by decide, by decide, by decide⟩

/-- C10 as amended: for every declaration string without a pointer token
whose final token matches the generic typedef pattern or the extra
whitelist (and does not carry the SYS_ pseudo-constant prefix), successful
parsing classifies that final token inside a Type Specifier part, never as
the Identifier: the resulting declaration has no identifier and the token
remains in the typespec. -/
theorem c10_trailing_typedef_amended (s : List Char) (d : TypeDecl) (t : Tok)
    (h : mkTypeDecl s = .ok d)
    (hlast : (clex s).getLast? = some t)
    (hex : matchesExtraRe t = true ∨ t ∈ TYPE_SPECIFIERS_EXTRA)
    (hsys : listPre "SYS_".data t = false)
    (hstar : ("*".data : Tok) ∉ clex s) :
    d.identifier = none ∧
    ∃ p ∈ d.typespec, p.kind = PartKind.typeSpecifier ∧ t ∈ p.tokens :=
  c10Aux2 s d t h hlast hex hsys hstar

/-- Witness for C10's amended statement: the declaration "int buf_t". -/
theorem c10_trailing_typedef_amended_witness :
    (⟨[tsP "int", tsP "buf_t"], none⟩ : TypeDecl).identifier = none ∧
    ∃ p ∈ (⟨[tsP "int", tsP "buf_t"], none⟩ : TypeDecl).typespec,
      p.kind = PartKind.typeSpecifier ∧ "buf_t".data ∈ p.tokens :=
  c10_trailing_typedef_amended "int buf_t".data ⟨[tsP "int", tsP "buf_t"], none⟩
    "buf_t".data (by decide) (by decide) (Or.inl (by decide)) (by decide) (by decide)
